import Mathlib

/-!
# Octree construction and queries of the Lunar-Lander application

A shallow embedding of the spatial-partitioning code of `src/ofApp.cpp`
(`subDivideBox8`, `generateTreeNodes`, `generateTree`, `getCollision`,
`getIntersectingVertices`) together with the properties proved about it.

Conventions of the embedding:

* coordinates (`float` in the source) are rationals. Comparisons are the same on
  them as in the source. The arithmetic of `subDivideBox8` is exact here, while
  the source rounds each operation, so nothing below rests on a value that
  `subDivideBox8` computes: the general theorems use only that the eight
  sub-boxes are fresh boxes (no children, no vertex indices), and the closed
  evaluations use boxes and vertices with small dyadic coordinates, on which
  every operation of the source is exact;
* `int` depths and levels are unbounded integers (a depth never comes near
  the range of `int`), vertex indices are natural numbers;
* a `std::vector` is a `List`; a `std::map<int, ofVec3f>` is the list of its
  (key, value) pairs in ascending key order, which is the order in which the
  source iterates over it;
* functions that write through a reference return the updated value.
-/

namespace LunarLander

/-! ## Vectors and boxes -/

/-- A point or vector of three coordinates (`Vector3`, `ofVec3f`, `ofPoint`). -/
structure Vector3 where
  x : ℚ
  y : ℚ
  z : ℚ
deriving DecidableEq

/-- Componentwise sum, `operator+` of `Vector3`. -/
def Vector3.add (a b : Vector3) : Vector3 := ⟨a.x + b.x, a.y + b.y, a.z + b.z⟩

/-- Componentwise difference, `operator-` of `Vector3`. -/
def Vector3.sub (a b : Vector3) : Vector3 := ⟨a.x - b.x, a.y - b.y, a.z - b.z⟩

/-- Division by a scalar, `operator/` of `Vector3`. -/
def Vector3.div (a : Vector3) (s : ℚ) : Vector3 := ⟨a.x / s, a.y / s, a.z / s⟩

/-- Componentwise order on vectors. -/
def Vector3.le (a b : Vector3) : Prop := a.x ≤ b.x ∧ a.y ≤ b.y ∧ a.z ≤ b.z

instance (a b : Vector3) : Decidable (Vector3.le a b) := by
  unfold Vector3.le
  exact inferInstance

/-- The node type `Box` of the octree. `parameters[0]` and `parameters[1]` are
the fields `min` and `max`; the other fields are those the source reads and
writes (`level`, `vertexIndices`, `children`, `containsSelectedVertex`). -/
inductive Box where
  | mk (min max : Vector3) (level : Int) (vertexIndices : List Nat)
      (children : List Box) (containsSelectedVertex : Bool)

/-- Corner `parameters[0]`. -/
def Box.min : Box → Vector3
  | .mk mn _ _ _ _ _ => mn

/-- Corner `parameters[1]`. -/
def Box.max : Box → Vector3
  | .mk _ mx _ _ _ _ => mx

/-- Field `level`. -/
def Box.level : Box → Int
  | .mk _ _ l _ _ _ => l

/-- Field `vertexIndices`. -/
def Box.vertexIndices : Box → List Nat
  | .mk _ _ _ vi _ _ => vi

/-- Field `children`. -/
def Box.children : Box → List Box
  | .mk _ _ _ _ ch _ => ch

/-- Field `containsSelectedVertex`. -/
def Box.containsSelectedVertex : Box → Bool
  | .mk _ _ _ _ _ f => f

/-- Assignment `box.level = l`. -/
def Box.setLevel : Box → Int → Box
  | .mk mn mx _ vi ch f, l => .mk mn mx l vi ch f

/-- Assignment of the whole `children` vector. -/
def Box.setChildren : Box → List Box → Box
  | .mk mn mx l vi _ f, ch => .mk mn mx l vi ch f

/-- Appends indices to the end of `vertexIndices`, in order (repeated `push_back`). -/
def Box.pushIndices : Box → List Nat → Box
  | .mk mn mx l vi ch f, js => .mk mn mx l (vi ++ js) ch f

/-- Modelled from the spec: the constructor `Box(min, max)` of `box.h`, a file
that is not among the sources. It stores the two corners; the two vectors
`vertexIndices` and `children` start empty. The initial values of `level` and
`containsSelectedVertex` are not fixed by the sources at hand; they are taken
as `0` and `false`, and `generateTreeNodes` overwrites the level of every box
it keeps. -/
def Box.ofCorners (mn mx : Vector3) : Box := .mk mn mx 0 [] [] false

/-- Modelled from the spec: `Box::contains` of `box.h`, which is not among the
sources: "true iff the point lies within `[min, max]` componentwise on all
three axes, inclusive bounds". -/
def Box.contains (b : Box) (p : Vector3) : Bool :=
  decide (b.min.x ≤ p.x ∧ p.x ≤ b.max.x ∧ b.min.y ≤ p.y ∧ p.y ≤ b.max.y ∧
    b.min.z ≤ p.z ∧ p.z ≤ b.max.z)

/-- A ray, `Ray(origin, direction)`. -/
structure Ray where
  origin : Vector3
  direction : Vector3

/-- The tree owner `Octree`; only its `root` takes part in the algorithms. -/
structure Octree where
  root : Box

/-- A `std::map<int, ofVec3f>` as its pairs in ascending key order. -/
abbrev VertexMap := List (Nat × Vector3)

/-! ## Subdivision -/

/-- The function `ofApp::subDivideBox8`: the eight boxes written to `boxList`,
built by the source's chain of shifts (`b[1]` from `b[0]`, `b[2]` from `b[1]`,
`b[3]` from `b[2]`, the upper four from the lower four). The corners are
computed without rounding; the source computes them in floating point, where
the sub-boxes need not cover the box or lie within it. -/
def subDivideBox8 (box : Box) : List Box :=
  let min := box.min
  let max := box.max
  let size := max.sub min
  let center := (size.div 2).add min
  let xdist := (max.x - min.x) / 2
  let ydist := (max.y - min.y) / 2
  let zdist := (max.z - min.z) / 2
  let h : Vector3 := ⟨0, ydist, 0⟩
  let b0 := Box.ofCorners min center
  let b1 := Box.ofCorners (b0.min.add ⟨xdist, 0, 0⟩) (b0.max.add ⟨xdist, 0, 0⟩)
  let b2 := Box.ofCorners (b1.min.add ⟨0, 0, zdist⟩) (b1.max.add ⟨0, 0, zdist⟩)
  let b3 := Box.ofCorners (b2.min.add ⟨-xdist, 0, 0⟩) (b2.max.add ⟨-xdist, 0, 0⟩)
  let b4 := Box.ofCorners (b0.min.add h) (b0.max.add h)
  let b5 := Box.ofCorners (b1.min.add h) (b1.max.add h)
  let b6 := Box.ofCorners (b2.min.add h) (b2.max.add h)
  let b7 := Box.ofCorners (b3.min.add h) (b3.max.add h)
  [b0, b1, b2, b3, b4, b5, b6, b7]

/-! ## Tree construction -/

/-- The `for` loop of `ofApp::generateTreeNodes` over `node.children`, with the
loop index `i`, the current `children` vector and the running value of
`octreeHighestDepth`. `recurse child innerVertices depth highest` stands for
the recursive call. An erased child leaves `i` in place (the source decrements
`i` and the loop header increments it again). The first argument bounds the
number of iterations; `children.length - i` iterations are enough, since each
one either erases a child or advances `i`. -/
def generateTreeNodesLoop (recurse : Box → VertexMap → Int → Int → Box × Int)
    (vertexList : VertexMap) (currentDepth maxDepth : Int) :
    Nat → List Box → Nat → Int → List Box × Int
  | 0, children, _, highest => (children, highest)
  | steps + 1, children, i, highest =>
    if h : i < children.length then
      let child := (children.get ⟨i, h⟩).setLevel (currentDepth + 1)
      let innerVertices := vertexList.filter (fun pair => child.contains pair.2)
      let child := child.pushIndices (innerVertices.map Prod.fst)
      if innerVertices.length = 0 then
        generateTreeNodesLoop recurse vertexList currentDepth maxDepth steps
          (children.eraseIdx i) i highest
      else if currentDepth < maxDepth ∧ innerVertices.length > 1 then
        let r := recurse child innerVertices child.level highest
        generateTreeNodesLoop recurse vertexList currentDepth maxDepth steps
          (children.set i r.1) (i + 1) r.2
      else
        generateTreeNodesLoop recurse vertexList currentDepth maxDepth steps
          (children.set i child) (i + 1) highest
    else (children, highest)

/-- The body of `ofApp::generateTreeNodes` with the recursive call abstracted:
set the level, update `octreeHighestDepth`, subdivide, run the loop. -/
def generateTreeNodesBody (recurse : Box → VertexMap → Int → Int → Box × Int)
    (node : Box) (vertexList : VertexMap) (currentDepth maxDepth : Int)
    (octreeHighestDepth : Int) : Box × Int :=
  let node := node.setLevel currentDepth
  let highest := if currentDepth > octreeHighestDepth then currentDepth else octreeHighestDepth
  let node := node.setChildren (subDivideBox8 node)
  let r := generateTreeNodesLoop recurse vertexList currentDepth maxDepth
    node.children.length node.children 0 highest
  (node.setChildren r.1, r.2)

/-- The function `ofApp::generateTreeNodes` unfolded to a bounded recursion
depth. With no depth left the recursive call returns its argument. -/
def generateTreeNodesFuel : Nat → Box → VertexMap → Int → Int → Int → Box × Int
  | 0, node, vertexList, currentDepth, maxDepth, highest =>
    generateTreeNodesBody (fun b _ _ hd => (b, hd)) node vertexList currentDepth maxDepth highest
  | fuel + 1, node, vertexList, currentDepth, maxDepth, highest =>
    generateTreeNodesBody
      (fun b vl cd hd => generateTreeNodesFuel fuel b vl cd maxDepth hd)
      node vertexList currentDepth maxDepth highest

/-- The function `ofApp::generateTreeNodes`: the updated node and the updated
`octreeHighestDepth`. A recursive call is made only while
`currentDepth < maxDepth` and raises `currentDepth` by one, so a recursion
depth of `maxDepth - currentDepth` is never exhausted
(`generateTreeNodesFuel_stable`). -/
def generateTreeNodes (node : Box) (vertexList : VertexMap) (currentDepth maxDepth : Int)
    (octreeHighestDepth : Int) : Box × Int :=
  generateTreeNodesFuel (maxDepth - currentDepth).toNat node vertexList currentDepth maxDepth
    octreeHighestDepth

/-- The function `ofApp::generateTree`: the octree and the value of
`octreeHighestDepth` after the call. `mesh` is the vertex array of the mesh;
the map from `0 .. n-1` to the vertices is its enumeration. -/
def generateTree (boundingBox : Box) (mesh : List Vector3) (maxDepth : Int)
    (octreeHighestDepth : Int) : Octree × Int :=
  let vertexList : VertexMap := mesh.enum
  let r := generateTreeNodes boundingBox vertexList 0 maxDepth octreeHighestDepth
  (⟨r.1⟩, r.2)

/-! ## Queries -/

mutual
/-- The function `ofApp::getCollision`: the returned indices and the box after
the call. -/
def getCollision : Box → Vector3 → List Nat × Box
  | .mk mn mx l vi ch f, point =>
    if (Box.mk mn mx l vi ch f).contains point then
      if h : vi.length = 1 then ([vi.get ⟨0, by rw [h]; exact Nat.one_pos⟩], .mk mn mx l vi ch f)
      else
        let r := getCollisionChildren ch point
        if r.1.length = 0 then ([], .mk mn mx l vi r.2 f)
        else (r.1, .mk mn mx l vi r.2 true)
    else ([], .mk mn mx l vi ch false)
/-- The range-`for` loop of `getCollision` over `box.children`. -/
def getCollisionChildren : List Box → Vector3 → List Nat × List Box
  | [], _ => ([], [])
  | child :: rest, point =>
    let r := getCollision child point
    let rs := getCollisionChildren rest point
    (r.1 ++ rs.1, r.2 :: rs.2)
end

mutual
/-- The function `ofApp::getIntersectingVertices`: the returned indices and the
box after the call. `intersect box ray t0 t1` is `Box::intersect` of `box.h`,
which is not among the sources; it is a parameter. -/
def getIntersectingVertices (intersect : Box → Ray → ℚ → ℚ → Bool) :
    Box → Ray → List Nat × Box
  | .mk mn mx l vi ch f, ray =>
    if intersect (Box.mk mn mx l vi ch f) ray 0 100 then
      if h : vi.length = 1 then ([vi.get ⟨0, by rw [h]; exact Nat.one_pos⟩], .mk mn mx l vi ch f)
      else
        let r := getIntersectingVerticesChildren intersect ch ray
        if r.1.length = 0 then ([], .mk mn mx l vi r.2 f)
        else (r.1, .mk mn mx l vi r.2 true)
    else ([], .mk mn mx l vi ch false)
/-- The range-`for` loop of `getIntersectingVertices` over `box.children`. -/
def getIntersectingVerticesChildren (intersect : Box → Ray → ℚ → ℚ → Bool) :
    List Box → Ray → List Nat × List Box
  | [], _ => ([], [])
  | child :: rest, ray =>
    let r := getIntersectingVertices intersect child ray
    let rs := getIntersectingVerticesChildren intersect rest ray
    (r.1 ++ rs.1, r.2 :: rs.2)
end

/-! ## Nodes of a tree -/

mutual
/-- All nodes of the tree rooted at a box, the box itself first. -/
def Box.nodes : Box → List Box
  | .mk mn mx l vi ch f => .mk mn mx l vi ch f :: Box.nodesList ch
/-- All nodes of the trees rooted at the boxes of a list. -/
def Box.nodesList : List Box → List Box
  | [] => []
  | b :: bs => b.nodes ++ Box.nodesList bs
end

/-- The example of the specification: bounds `[(0,0,0),(2,2,2)]`. -/
def exampleBounds : Box := Box.ofCorners ⟨0, 0, 0⟩ ⟨2, 2, 2⟩

/-- The example of the specification: vertices `(0.5,0.5,0.5)` and `(1.5,1.5,1.5)`. -/
def exampleMesh : List Vector3 := [⟨1/2, 1/2, 1/2⟩, ⟨3/2, 3/2, 3/2⟩]

/-! ## Functional descriptions used in the proofs -/

/-- The loop of `generateTreeNodes` written as one pass over the list of
sub-boxes that are still to be examined: a box holding no vertex is dropped,
the others are kept in order. -/
def processChildren (recurse : Box → VertexMap → Int → Int → Box × Int)
    (vertexList : VertexMap) (currentDepth maxDepth : Int) :
    List Box → Int → List Box × Int
  | [], highest => ([], highest)
  | b :: bs, highest =>
    let child := b.setLevel (currentDepth + 1)
    let innerVertices := vertexList.filter (fun pair => child.contains pair.2)
    let child := child.pushIndices (innerVertices.map Prod.fst)
    if innerVertices.length = 0 then
      processChildren recurse vertexList currentDepth maxDepth bs highest
    else if currentDepth < maxDepth ∧ innerVertices.length > 1 then
      let r := recurse child innerVertices child.level highest
      let rs := processChildren recurse vertexList currentDepth maxDepth bs r.2
      (r.1 :: rs.1, rs.2)
    else
      let rs := processChildren recurse vertexList currentDepth maxDepth bs highest
      (child :: rs.1, rs.2)

/-- The vertices of a map that lie in a box, in the order of the map. -/
def innerVerticesOf (vertexList : VertexMap) (b : Box) : VertexMap :=
  vertexList.filter (fun pair => b.contains pair.2)

/-- A sub-box after the loop body has set its level and filled its indices. -/
def filledChild (vertexList : VertexMap) (currentDepth : Int) (b : Box) : Box :=
  (b.setLevel (currentDepth + 1)).pushIndices ((innerVerticesOf vertexList b).map Prod.fst)

/-- What the loop of `generateTreeNodes` makes of one sub-box `b`, with the
recursive call reduced to the node it returns: nothing when no vertex lies in
`b`, else the filled child, subdivided further when the guard allows it. -/
def keepChild (recurse : Box → VertexMap → Int → Box) (vertexList : VertexMap)
    (currentDepth maxDepth : Int) (b : Box) : Option Box :=
  let child := b.setLevel (currentDepth + 1)
  let innerVertices := vertexList.filter (fun pair => child.contains pair.2)
  let child := child.pushIndices (innerVertices.map Prod.fst)
  if innerVertices.length = 0 then none
  else if currentDepth < maxDepth ∧ innerVertices.length > 1 then
    some (recurse child innerVertices child.level)
  else some child

/-- The node that `generateTreeNodesFuel` returns, without the counter. -/
def buildTree : Nat → Box → VertexMap → Int → Int → Box
  | 0, node, vertexList, currentDepth, maxDepth =>
    (node.setLevel currentDepth).setChildren
      ((subDivideBox8 (node.setLevel currentDepth)).filterMap
        (keepChild (fun b _ _ => b) vertexList currentDepth maxDepth))
  | fuel + 1, node, vertexList, currentDepth, maxDepth =>
    (node.setLevel currentDepth).setChildren
      ((subDivideBox8 (node.setLevel currentDepth)).filterMap
        (keepChild (fun b vl cd => buildTree fuel b vl cd maxDepth) vertexList currentDepth
          maxDepth))

mutual
/-- A tree with every `containsSelectedVertex` flag cleared: what is left is
the bounds, level, vertex indices and children of every node. -/
def Box.skeleton : Box → Box
  | .mk mn mx l vi ch _ => .mk mn mx l vi (Box.skeletonList ch) false
/-- The skeletons of the trees of a list. -/
def Box.skeletonList : List Box → List Box
  | [] => []
  | b :: bs => b.skeleton :: Box.skeletonList bs
end

/-- The two corners of a box. -/
def Box.bounds (b : Box) : Vector3 × Vector3 := (b.min, b.max)

/-- The children that the specification describes for a subdivided node: the
sub-boxes of `subDivideBox8`, in their order, that contain at least one vertex
of the incoming vertex list. -/
def prunedSubdivisions (node : Box) (vertexList : VertexMap) : List Box :=
  (subDivideBox8 node).filter (fun b => vertexList.any (fun pair => b.contains pair.2))

/-- Vertex `i` of the mesh lies within the bounds of a box (inclusive test);
false for an index outside the mesh. -/
def vertexInBox (mesh : List Vector3) (b : Box) (i : Nat) : Bool :=
  match mesh[i]? with
  | some v => b.contains v
  | none => false

mutual
/-- The list of indices that both queries return, as a function of the test
`hit` made on each box (`contains(point)` or `intersect(ray, 0, 100)`): a box
that fails the test yields nothing, a box with exactly one vertex index yields
it, any other box yields what its children yield, in order. -/
def queryResult (hit : Box → Bool) : Box → List Nat
  | .mk mn mx l vi ch f =>
    if hit (.mk mn mx l vi ch f) then
      if vi.length = 1 then vi else queryResultList hit ch
    else []
/-- The concatenated results of the boxes of a list. -/
def queryResultList (hit : Box → Bool) : List Box → List Nat
  | [] => []
  | c :: cs => queryResult hit c ++ queryResultList hit cs
end

/-- The leaves of a tree: its nodes without children, in preorder. -/
def Box.leaves (b : Box) : List Box := b.nodes.filter (fun n => n.children.isEmpty)

/-- Two boxes share no vertex index. -/
def disjointIndices (a b : Box) : Prop := ∀ i ∈ a.vertexIndices, i ∉ b.vertexIndices

instance (a b : Box) : Decidable (disjointIndices a b) := by
  unfold disjointIndices
  exact inferInstance

/-- No two children of a node of the tree share a vertex index. -/
def siblingsDisjoint (t : Box) : Prop := ∀ n ∈ t.nodes, n.children.Pairwise disjointIndices

instance (t : Box) : Decidable (siblingsDisjoint t) := by
  unfold siblingsDisjoint
  exact inferInstance

/-- No node of the first tree shares a vertex index with a node of the second. -/
def subtreesDisjoint (a b : Box) : Prop :=
  ∀ m ∈ a.nodes, ∀ m2 ∈ b.nodes, disjointIndices m m2

/-- Bounds `[(0,0,0),(4,4,4)]`, used with `crowdedMesh`. -/
def crowdedBounds : Box := Box.ofCorners ⟨0, 0, 0⟩ ⟨4, 4, 4⟩

/-- Two vertices, `(0.25,0.25,0.25)` and `(0.75,0.75,0.75)`, that a maximum
depth of `1` does not separate. -/
def crowdedMesh : List Vector3 := [⟨1/4, 1/4, 1/4⟩, ⟨3/4, 3/4, 3/4⟩]

/-- The update of one axis in the loop of `ofApp::meshBounds`: the pair
(max, min) after `if (v > max) max = v; else if (v < min) min = v;`. -/
def meshBoundsAxis (max min v : ℚ) : ℚ × ℚ :=
  if v > max then (v, min) else if v < min then (max, v) else (max, min)

/-- The body of the loop of `ofApp::meshBounds` on the state `(max, min)`: the
three axes are updated one after the other, each from its own coordinates. -/
def meshBoundsStep (s : Vector3 × Vector3) (v : Vector3) : Vector3 × Vector3 :=
  let max := s.1
  let min := s.2
  let x := meshBoundsAxis max.x min.x v.x
  let y := meshBoundsAxis max.y min.y v.y
  let z := meshBoundsAxis max.z min.z v.z
  (⟨x.1, y.1, z.1⟩, ⟨x.2, y.2, z.2⟩)

/-- The function `ofApp::meshBounds`: `max` and `min` start at vertex `0`, the
loop runs over the vertices `1 .. n-1`, and the box `Box(min, max)` is
returned. A mesh without a vertex has no vertex `0` to read: no result. -/
def meshBounds (mesh : List Vector3) : Option Box :=
  match mesh with
  | [] => none
  | v :: rest =>
    let s := rest.foldl meshBoundsStep (v, v)
    some (Box.ofCorners s.2 s.1)

/-- The `containsSelectedVertex` values of the nodes of a tree, in preorder. -/
def Box.flags (t : Box) : List Bool := t.nodes.map Box.containsSelectedVertex

mutual
/-- What a query writes to `containsSelectedVertex`, node by node in preorder,
as a function of the test `hit` made on each box: `some false` at a visited box
that fails the test, `some true` at a visited box that passes it, does not hold
exactly one vertex index and gets a non-empty list from its children, and
`none` at every node to which the query assigns nothing (among them all nodes
below a box where the traversal stops). -/
def queryWrites (hit : Box → Bool) : Box → List (Option Bool)
  | .mk mn mx l vi ch f =>
    if hit (.mk mn mx l vi ch f) then
      if vi.length = 1 then none :: List.replicate (Box.nodesList ch).length none
      else
        (if (queryResultList hit ch).length = 0 then none else some true) ::
          queryWritesList hit ch
    else some false :: List.replicate (Box.nodesList ch).length none
/-- The writes of a query to the trees of a list, one tree after the other. -/
def queryWritesList (hit : Box → Bool) : List Box → List (Option Bool)
  | [] => []
  | c :: cs => queryWrites hit c ++ queryWritesList hit cs
end

/-- A flag agrees with what was written: when a value was written, the flag has
that value. -/
def writtenAs (w : Option Bool) (f : Bool) : Prop := ∀ v, w = some v → f = v

/-- Bounds `[(0,0,0),(4,4,4)]` around the mesh of the example: the vertices
then part at level 2, below an inner node of level 1. -/
def deepTree : Box := (generateTree crowdedBounds exampleMesh 3 0).1.root

/-- A node other than the root is one that `generateTreeNodes` ran on: the
loop of its parent calls `generateTreeNodes` on a child exactly when the
parent's depth is below `maxDepth`, that is when the child's level is at most
`maxDepth`, and the child holds more than one vertex index. -/
def Box.ranOn (maxDepth : Int) (n : Box) : Bool :=
  decide (1 < n.vertexIndices.length ∧ n.level ≤ maxDepth)

/-- The levels of the nodes of the trees of a list on which `generateTreeNodes`
ran, in preorder. -/
def Box.recursedLevels (maxDepth : Int) (bs : List Box) : List Int :=
  ((Box.nodesList bs).filter (Box.ranOn maxDepth)).map Box.level

/-! ## The loop of `generateTreeNodes` as one pass over the sub-boxes -/

theorem generateTreeNodesLoop_append (recurse : Box → VertexMap → Int → Int → Box × Int)
    (vertexList : VertexMap) (currentDepth maxDepth : Int) :
    ∀ (steps : Nat) (pre suf : List Box) (highest : Int), suf.length ≤ steps →
      generateTreeNodesLoop recurse vertexList currentDepth maxDepth steps (pre ++ suf)
          pre.length highest =
        (pre ++ (processChildren recurse vertexList currentDepth maxDepth suf highest).1,
          (processChildren recurse vertexList currentDepth maxDepth suf highest).2) := by
  intro steps
  induction steps with
  | zero =>
    intro pre suf highest h
    have : suf = [] := List.length_eq_zero.mp (Nat.le_zero.mp h)
    subst this
    simp [generateTreeNodesLoop, processChildren]
  | succ n ih =>
    intro pre suf highest h
    cases suf with
    | nil => simp [generateTreeNodesLoop, processChildren]
    | cons b bs =>
      have hlen : bs.length ≤ n := by simpa using h
      have hi : pre.length < (pre ++ b :: bs).length := by simp
      have hget : (pre ++ b :: bs).get ⟨pre.length, hi⟩ = b := by
        rw [List.get_eq_getElem, List.getElem_append_right (le_refl _)]
        simp
      have herase : (pre ++ b :: bs).eraseIdx pre.length = pre ++ bs := by
        simp [List.eraseIdx_append_of_length_le]
      have hset : ∀ c, (pre ++ b :: bs).set pre.length c = (pre ++ [c]) ++ bs := by
        intro c; simp
      have hlen1 : pre.length + 1 = (pre ++ [b]).length := by simp
      rw [generateTreeNodesLoop, dif_pos hi]
      simp only [hget, herase, hset]
      rw [processChildren]
      split_ifs with h1 h2
      · exact ih pre bs highest hlen
      · have := ih (pre ++ [(recurse ((b.setLevel (currentDepth + 1)).pushIndices
            ((vertexList.filter (fun pair => (b.setLevel (currentDepth + 1)).contains pair.2)).map
              Prod.fst))
            (vertexList.filter (fun pair => (b.setLevel (currentDepth + 1)).contains pair.2))
            ((b.setLevel (currentDepth + 1)).pushIndices
            ((vertexList.filter (fun pair => (b.setLevel (currentDepth + 1)).contains pair.2)).map
              Prod.fst)).level highest).1]) bs
            (recurse ((b.setLevel (currentDepth + 1)).pushIndices
            ((vertexList.filter (fun pair => (b.setLevel (currentDepth + 1)).contains pair.2)).map
              Prod.fst))
            (vertexList.filter (fun pair => (b.setLevel (currentDepth + 1)).contains pair.2))
            ((b.setLevel (currentDepth + 1)).pushIndices
            ((vertexList.filter (fun pair => (b.setLevel (currentDepth + 1)).contains pair.2)).map
              Prod.fst)).level highest).2 hlen
        simpa using this
      · have := ih (pre ++ [(b.setLevel (currentDepth + 1)).pushIndices
            ((vertexList.filter (fun pair => (b.setLevel (currentDepth + 1)).contains pair.2)).map
              Prod.fst)]) bs highest hlen
        simpa using this

/-! ## Field lemmas -/

@[simp] theorem Box.min_setLevel (b : Box) (l : Int) : (b.setLevel l).min = b.min := by
  cases b; rfl
@[simp] theorem Box.max_setLevel (b : Box) (l : Int) : (b.setLevel l).max = b.max := by
  cases b; rfl
@[simp] theorem Box.level_setLevel (b : Box) (l : Int) : (b.setLevel l).level = l := by
  cases b; rfl
@[simp] theorem Box.vertexIndices_setLevel (b : Box) (l : Int) :
    (b.setLevel l).vertexIndices = b.vertexIndices := by
  cases b; rfl
@[simp] theorem Box.children_setLevel (b : Box) (l : Int) :
    (b.setLevel l).children = b.children := by
  cases b; rfl
@[simp] theorem Box.min_setChildren (b : Box) (c : List Box) : (b.setChildren c).min = b.min := by
  cases b; rfl
@[simp] theorem Box.max_setChildren (b : Box) (c : List Box) : (b.setChildren c).max = b.max := by
  cases b; rfl
@[simp] theorem Box.level_setChildren (b : Box) (c : List Box) :
    (b.setChildren c).level = b.level := by
  cases b; rfl
@[simp] theorem Box.vertexIndices_setChildren (b : Box) (c : List Box) :
    (b.setChildren c).vertexIndices = b.vertexIndices := by
  cases b; rfl
@[simp] theorem Box.children_setChildren (b : Box) (c : List Box) :
    (b.setChildren c).children = c := by
  cases b; rfl
@[simp] theorem Box.setChildren_setChildren (b : Box) (c d : List Box) :
    (b.setChildren c).setChildren d = b.setChildren d := by
  cases b; rfl
@[simp] theorem Box.min_pushIndices (b : Box) (js : List Nat) : (b.pushIndices js).min = b.min := by
  cases b; rfl
@[simp] theorem Box.max_pushIndices (b : Box) (js : List Nat) : (b.pushIndices js).max = b.max := by
  cases b; rfl
@[simp] theorem Box.level_pushIndices (b : Box) (js : List Nat) :
    (b.pushIndices js).level = b.level := by
  cases b; rfl
@[simp] theorem Box.vertexIndices_pushIndices (b : Box) (js : List Nat) :
    (b.pushIndices js).vertexIndices = b.vertexIndices ++ js := by
  cases b; rfl
@[simp] theorem Box.children_pushIndices (b : Box) (js : List Nat) :
    (b.pushIndices js).children = b.children := by
  cases b; rfl
@[simp] theorem Box.min_ofCorners (mn mx : Vector3) : (Box.ofCorners mn mx).min = mn := rfl
@[simp] theorem Box.max_ofCorners (mn mx : Vector3) : (Box.ofCorners mn mx).max = mx := rfl
@[simp] theorem Box.vertexIndices_ofCorners (mn mx : Vector3) :
    (Box.ofCorners mn mx).vertexIndices = [] := rfl
@[simp] theorem Box.children_ofCorners (mn mx : Vector3) :
    (Box.ofCorners mn mx).children = [] := rfl

theorem Box.contains_congr {a b : Box} (hmin : a.min = b.min) (hmax : a.max = b.max)
    (p : Vector3) : a.contains p = b.contains p := by
  simp [Box.contains, hmin, hmax]

@[simp] theorem Box.contains_setLevel (b : Box) (l : Int) (p : Vector3) :
    (b.setLevel l).contains p = b.contains p :=
  Box.contains_congr (by simp) (by simp) p

@[simp] theorem Box.contains_pushIndices (b : Box) (js : List Nat) (p : Vector3) :
    (b.pushIndices js).contains p = b.contains p :=
  Box.contains_congr (by simp) (by simp) p

@[simp] theorem Box.contains_setChildren (b : Box) (c : List Box) (p : Vector3) :
    (b.setChildren c).contains p = b.contains p :=
  Box.contains_congr (by simp) (by simp) p

theorem keepChild_eq (recurse : Box → VertexMap → Int → Box) (vertexList : VertexMap)
    (currentDepth maxDepth : Int) (b : Box) :
    keepChild recurse vertexList currentDepth maxDepth b =
      if (innerVerticesOf vertexList b).length = 0 then none
      else if currentDepth < maxDepth ∧ (innerVerticesOf vertexList b).length > 1 then
        some (recurse (filledChild vertexList currentDepth b) (innerVerticesOf vertexList b)
          (currentDepth + 1))
      else some (filledChild vertexList currentDepth b) := by
  simp only [keepChild, innerVerticesOf, filledChild, Box.contains_setLevel,
    Box.level_pushIndices, Box.level_setLevel]

theorem processChildren_cons (recurse : Box → VertexMap → Int → Int → Box × Int)
    (vertexList : VertexMap) (currentDepth maxDepth : Int) (b : Box) (bs : List Box)
    (highest : Int) :
    processChildren recurse vertexList currentDepth maxDepth (b :: bs) highest =
      if (innerVerticesOf vertexList b).length = 0 then
        processChildren recurse vertexList currentDepth maxDepth bs highest
      else if currentDepth < maxDepth ∧ (innerVerticesOf vertexList b).length > 1 then
        ((recurse (filledChild vertexList currentDepth b) (innerVerticesOf vertexList b)
              (currentDepth + 1) highest).1 ::
            (processChildren recurse vertexList currentDepth maxDepth bs
              (recurse (filledChild vertexList currentDepth b) (innerVerticesOf vertexList b)
                (currentDepth + 1) highest).2).1,
          (processChildren recurse vertexList currentDepth maxDepth bs
              (recurse (filledChild vertexList currentDepth b) (innerVerticesOf vertexList b)
                (currentDepth + 1) highest).2).2)
      else
        (filledChild vertexList currentDepth b ::
            (processChildren recurse vertexList currentDepth maxDepth bs highest).1,
          (processChildren recurse vertexList currentDepth maxDepth bs highest).2) := by
  simp only [processChildren, innerVerticesOf, filledChild, Box.contains_setLevel,
    Box.level_pushIndices, Box.level_setLevel]

theorem processChildren_fst (recurse : Box → VertexMap → Int → Int → Box × Int)
    (pure : Box → VertexMap → Int → Box)
    (hrec : ∀ b vl cd hd, (recurse b vl cd hd).1 = pure b vl cd)
    (vertexList : VertexMap) (currentDepth maxDepth : Int) :
    ∀ (bs : List Box) (highest : Int),
      (processChildren recurse vertexList currentDepth maxDepth bs highest).1 =
        bs.filterMap (keepChild pure vertexList currentDepth maxDepth) := by
  intro bs
  induction bs with
  | nil => intro highest; simp [processChildren]
  | cons b bs ih =>
    intro highest
    rw [processChildren_cons, List.filterMap_cons, keepChild_eq]
    split_ifs with h1 h2
    · exact ih highest
    · simp [ih, hrec]
    · simp [ih]

theorem generateTreeNodesBody_eq (recurse : Box → VertexMap → Int → Int → Box × Int)
    (node : Box) (vertexList : VertexMap) (currentDepth maxDepth highest : Int) :
    generateTreeNodesBody recurse node vertexList currentDepth maxDepth highest =
      ((node.setLevel currentDepth).setChildren
          (processChildren recurse vertexList currentDepth maxDepth
            (subDivideBox8 (node.setLevel currentDepth))
            (if currentDepth > highest then currentDepth else highest)).1,
        (processChildren recurse vertexList currentDepth maxDepth
            (subDivideBox8 (node.setLevel currentDepth))
            (if currentDepth > highest then currentDepth else highest)).2) := by
  have h := generateTreeNodesLoop_append recurse vertexList currentDepth maxDepth
    (subDivideBox8 (node.setLevel currentDepth)).length []
    (subDivideBox8 (node.setLevel currentDepth))
    (if currentDepth > highest then currentDepth else highest) (le_refl _)
  simp only [List.nil_append, List.length_nil] at h
  simp only [generateTreeNodesBody, Box.children_setChildren, Box.setChildren_setChildren, h]

theorem generateTreeNodesFuel_fst :
    ∀ (fuel : Nat) (node : Box) (vertexList : VertexMap) (currentDepth maxDepth highest : Int),
      (generateTreeNodesFuel fuel node vertexList currentDepth maxDepth highest).1 =
        buildTree fuel node vertexList currentDepth maxDepth := by
  intro fuel
  induction fuel with
  | zero =>
    intro node vertexList currentDepth maxDepth highest
    rw [generateTreeNodesFuel, generateTreeNodesBody_eq, buildTree]
    simp only
    rw [processChildren_fst _ (fun b _ _ => b) (fun _ _ _ _ => rfl)]
  | succ k ih =>
    intro node vertexList currentDepth maxDepth highest
    rw [generateTreeNodesFuel, generateTreeNodesBody_eq, buildTree]
    simp only
    rw [processChildren_fst _ (fun b vl cd => buildTree k b vl cd maxDepth)
      (fun b vl cd hd => ih b vl cd maxDepth hd)]

mutual
theorem getCollision_skeleton : ∀ (box : Box) (point : Vector3),
    (getCollision box point).2.skeleton = box.skeleton
  | .mk mn mx l vi ch f, point => by
    rw [getCollision]
    split_ifs with h
    · rfl
    · have ih := getCollisionChildren_skeleton ch point
      dsimp only
      split_ifs <;> simp only [Box.skeleton, ih]
    · simp only [Box.skeleton]
theorem getCollisionChildren_skeleton : ∀ (boxes : List Box) (point : Vector3),
    Box.skeletonList (getCollisionChildren boxes point).2 = Box.skeletonList boxes
  | [], _ => by simp [getCollisionChildren]
  | b :: bs, point => by
    rw [getCollisionChildren]
    simp only [Box.skeletonList, getCollision_skeleton b point,
      getCollisionChildren_skeleton bs point]
end

/-! ## The boxes returned by `subDivideBox8` -/

theorem Box.contains_iff (b : Box) (p : Vector3) :
    b.contains p = true ↔ b.min.le p ∧ p.le b.max := by
  simp only [Box.contains, Vector3.le, decide_eq_true_eq]
  tauto

theorem mem_subDivideBox8_children (box b : Box) (h : b ∈ subDivideBox8 box) :
    b.children = [] ∧ b.vertexIndices = [] := by
  simp only [subDivideBox8, List.mem_cons, List.mem_singleton, List.not_mem_nil, or_false] at h
  rcases h with h | h | h | h | h | h | h | h <;> subst h <;> exact ⟨rfl, rfl⟩

@[simp] theorem subDivideBox8_setLevel (box : Box) (l : Int) :
    subDivideBox8 (box.setLevel l) = subDivideBox8 box := by
  simp [subDivideBox8]

/-! ## Nodes of a tree -/

theorem Box.nodes_eq (b : Box) : b.nodes = b :: Box.nodesList b.children := by
  cases b; simp [Box.nodes, Box.children]

theorem Box.mem_nodesList {n : Box} {bs : List Box} :
    n ∈ Box.nodesList bs ↔ ∃ c ∈ bs, n ∈ c.nodes := by
  induction bs with
  | nil => simp [Box.nodesList]
  | cons b bs ih => simp [Box.nodesList, ih]

theorem Box.mem_nodes_self (b : Box) : b ∈ b.nodes := by
  rw [Box.nodes_eq]; exact List.mem_cons_self _ _

theorem Box.mem_nodes_iff {n b : Box} :
    n ∈ b.nodes ↔ n = b ∨ ∃ c ∈ b.children, n ∈ c.nodes := by
  rw [Box.nodes_eq, List.mem_cons, Box.mem_nodesList]

theorem Box.nodes_of_children_nil {b : Box} (h : b.children = []) : b.nodes = [b] := by
  rw [Box.nodes_eq, h]; rfl

/-! ## The shape of a built tree -/

@[simp] theorem filledChild_min (V : VertexMap) (cd : Int) (b : Box) :
    (filledChild V cd b).min = b.min := by simp [filledChild]
@[simp] theorem filledChild_max (V : VertexMap) (cd : Int) (b : Box) :
    (filledChild V cd b).max = b.max := by simp [filledChild]
@[simp] theorem filledChild_level (V : VertexMap) (cd : Int) (b : Box) :
    (filledChild V cd b).level = cd + 1 := by simp [filledChild]
@[simp] theorem filledChild_children (V : VertexMap) (cd : Int) (b : Box) :
    (filledChild V cd b).children = b.children := by simp [filledChild]
@[simp] theorem filledChild_vertexIndices (V : VertexMap) (cd : Int) (b : Box) :
    (filledChild V cd b).vertexIndices =
      b.vertexIndices ++ (innerVerticesOf V b).map Prod.fst := by simp [filledChild]
@[simp] theorem filledChild_contains (V : VertexMap) (cd : Int) (b : Box) (p : Vector3) :
    (filledChild V cd b).contains p = b.contains p :=
  Box.contains_congr (by simp) (by simp) p

theorem innerVerticesOf_congr (V : VertexMap) {a b : Box} (hmin : a.min = b.min)
    (hmax : a.max = b.max) : innerVerticesOf V a = innerVerticesOf V b := by
  unfold innerVerticesOf
  congr 1
  funext pair
  exact Box.contains_congr hmin hmax pair.2

theorem mem_innerVerticesOf {V : VertexMap} {b : Box} {pair : Nat × Vector3} :
    pair ∈ innerVerticesOf V b ↔ pair ∈ V ∧ b.contains pair.2 = true := by
  simp [innerVerticesOf]

/-- The two equations of `buildTree` as one. -/
theorem buildTree_eq (fuel : Nat) (node : Box) (V : VertexMap) (cd md : Int) :
    buildTree fuel node V cd md =
      (node.setLevel cd).setChildren ((subDivideBox8 node).filterMap
        (keepChild (fun b vl d => match fuel with
          | 0 => b
          | k + 1 => buildTree k b vl d md) V cd md)) := by
  cases fuel <;> simp [buildTree]

@[simp] theorem buildTree_min (fuel : Nat) (node : Box) (V : VertexMap) (cd md : Int) :
    (buildTree fuel node V cd md).min = node.min := by
  rw [buildTree_eq]; simp
@[simp] theorem buildTree_max (fuel : Nat) (node : Box) (V : VertexMap) (cd md : Int) :
    (buildTree fuel node V cd md).max = node.max := by
  rw [buildTree_eq]; simp
@[simp] theorem buildTree_level (fuel : Nat) (node : Box) (V : VertexMap) (cd md : Int) :
    (buildTree fuel node V cd md).level = cd := by
  rw [buildTree_eq]; simp
@[simp] theorem buildTree_vertexIndices (fuel : Nat) (node : Box) (V : VertexMap) (cd md : Int) :
    (buildTree fuel node V cd md).vertexIndices = node.vertexIndices := by
  rw [buildTree_eq]; simp

/-- Each child of a built node comes from one of the eight sub-boxes that holds
a vertex; it is that sub-box filled, or the tree built from it one level down. -/
theorem buildTree_children_cases {fuel : Nat} {node : Box} {V : VertexMap} {cd md : Int}
    {c : Box} (hc : c ∈ (buildTree fuel node V cd md).children) :
    ∃ b ∈ subDivideBox8 node, (innerVerticesOf V b).length ≠ 0 ∧
      (c = filledChild V cd b ∨
        ∃ k, fuel = k + 1 ∧ cd < md ∧ 1 < (innerVerticesOf V b).length ∧
          c = buildTree k (filledChild V cd b) (innerVerticesOf V b) (cd + 1) md) := by
  rw [buildTree_eq, Box.children_setChildren, List.mem_filterMap] at hc
  obtain ⟨b, hb, hk⟩ := hc
  refine ⟨b, hb, ?_⟩
  rw [keepChild_eq] at hk
  split_ifs at hk with h1 h2
  · refine ⟨h1, ?_⟩
    cases fuel with
    | zero => left; simpa using hk.symm
    | succ k => right; exact ⟨k, rfl, h2.1, h2.2, by simpa using hk.symm⟩
  · exact ⟨h1, Or.inl (by simpa using hk.symm)⟩

/-- Every sub-box that holds a vertex yields a child. -/
theorem buildTree_children_of_inner {fuel : Nat} {node : Box} {V : VertexMap} {cd md : Int}
    {b : Box} (hb : b ∈ subDivideBox8 node) (hne : (innerVerticesOf V b).length ≠ 0) :
    ∃ c ∈ (buildTree fuel node V cd md).children,
      c = filledChild V cd b ∨
        ∃ k, fuel = k + 1 ∧ cd < md ∧ 1 < (innerVerticesOf V b).length ∧
          c = buildTree k (filledChild V cd b) (innerVerticesOf V b) (cd + 1) md := by
  simp only [buildTree_eq fuel, Box.children_setChildren, List.mem_filterMap, keepChild_eq]
  by_cases h2 : cd < md ∧ (innerVerticesOf V b).length > 1
  · cases fuel with
    | zero =>
      exact ⟨filledChild V cd b, ⟨b, hb, by simp [hne, h2]⟩, Or.inl rfl⟩
    | succ k =>
      exact ⟨buildTree k (filledChild V cd b) (innerVerticesOf V b) (cd + 1) md,
        ⟨b, hb, by simp [hne, h2]⟩, Or.inr ⟨k, rfl, h2.1, h2.2, rfl⟩⟩
  · exact ⟨filledChild V cd b, ⟨b, hb, by simp [hne, h2]⟩, Or.inl rfl⟩

theorem filledChild_leaf {node : Box} (V : VertexMap) (cd : Int) {b : Box}
    (hb : b ∈ subDivideBox8 node) :
    (filledChild V cd b).children = [] ∧
      (filledChild V cd b).vertexIndices = (innerVerticesOf V b).map Prod.fst := by
  have h := mem_subDivideBox8_children node b hb
  simp [h.1, h.2]

theorem generateTree_root (boundingBox : Box) (mesh : List Vector3) (maxDepth highest : Int) :
    (generateTree boundingBox mesh maxDepth highest).1.root =
      buildTree maxDepth.toNat boundingBox mesh.enum 0 maxDepth := by
  simp [generateTree, generateTreeNodes, generateTreeNodesFuel_fst]

/-! ## Depth of the built tree -/

theorem buildTree_levels : ∀ (fuel : Nat) (node : Box) (V : VertexMap) (cd md : Int),
    cd ≤ md → ∀ n ∈ (buildTree fuel node V cd md).nodes,
      n.level ≤ md + 1 ∧ (n.level = md + 1 → n.children = []) := by
  intro fuel
  induction fuel with
  | zero =>
    intro node V cd md hcd n hn
    rcases Box.mem_nodes_iff.mp hn with rfl | ⟨c, hc, hnc⟩
    · simp only [buildTree_level]
      exact ⟨by omega, fun h => by omega⟩
    · obtain ⟨b, hb, _, hcase⟩ := buildTree_children_cases hc
      rcases hcase with rfl | ⟨k, hk, _⟩
      · rw [Box.nodes_of_children_nil (filledChild_leaf V cd hb).1, List.mem_singleton] at hnc
        subst hnc
        exact ⟨by simpa using hcd, fun _ => (filledChild_leaf V cd hb).1⟩
      · omega
  | succ k ih =>
    intro node V cd md hcd n hn
    rcases Box.mem_nodes_iff.mp hn with rfl | ⟨c, hc, hnc⟩
    · simp only [buildTree_level]
      exact ⟨by omega, fun h => by omega⟩
    · obtain ⟨b, hb, _, hcase⟩ := buildTree_children_cases hc
      rcases hcase with rfl | ⟨k2, hk, hlt, _, rfl⟩
      · rw [Box.nodes_of_children_nil (filledChild_leaf V cd hb).1, List.mem_singleton] at hnc
        subst hnc
        exact ⟨by simpa using hcd, fun _ => (filledChild_leaf V cd hb).1⟩
      · have hkk : k2 = k := by omega
        subst hkk
        exact ih _ _ (cd + 1) md (by omega) n hnc

/-- C3 (as amended). Depth cap of the code: for a maximum depth `D ≥ 0` no node
of the tree built by `generateTree` has a level above `D + 1`, and every node
of level `D + 1` has no children. -/
theorem generateTree_depth_cap (boundingBox : Box) (mesh : List Vector3) (D highest : Int)
    (hD : 0 ≤ D) :
    ∀ n ∈ (generateTree boundingBox mesh D highest).1.root.nodes,
      n.level ≤ D + 1 ∧ (n.level = D + 1 → n.children = []) := by
  rw [generateTree_root]
  exact buildTree_levels _ _ _ 0 D hD

/-- The depth cap at the example of the specification with `D = 3`. -/
theorem generateTree_depth_cap_witness :
    (0 : Int) ≤ 3 ∧ ∀ n ∈ (generateTree exampleBounds exampleMesh 3 0).1.root.nodes,
      n.level ≤ 3 + 1 ∧ (n.level = 3 + 1 → n.children = []) :=
  ⟨by decide, generateTree_depth_cap exampleBounds exampleMesh 3 0 (by decide)⟩

/-- C3, counterexample. With maximum depth `0` the tree of the example has a
node of level `1`, and its root, of level `0`, has children. -/
theorem generateTree_depth_cap_counterexample :
    ¬ (∀ n ∈ (generateTree exampleBounds exampleMesh 0 0).1.root.nodes,
        n.level ≤ 0 ∧ (n.level = 0 → n.children.length = 0)) := by
  decide!

/-! ## Number of children -/

theorem buildTree_arity : ∀ (fuel : Nat) (node : Box) (V : VertexMap) (cd md : Int),
    ∀ n ∈ (buildTree fuel node V cd md).nodes, n.children.length ≤ 8 := by
  intro fuel
  induction fuel with
  | zero =>
    intro node V cd md n hn
    rcases Box.mem_nodes_iff.mp hn with rfl | ⟨c, hc, hnc⟩
    · rw [buildTree_eq, Box.children_setChildren]
      exact le_trans (List.length_filterMap_le _ _) (le_of_eq rfl)
    · obtain ⟨b, hb, _, hcase⟩ := buildTree_children_cases hc
      rcases hcase with rfl | ⟨k, hk, _⟩
      · rw [Box.nodes_of_children_nil (filledChild_leaf V cd hb).1, List.mem_singleton] at hnc
        subst hnc
        simp [(mem_subDivideBox8_children node b hb).1]
      · omega
  | succ k ih =>
    intro node V cd md n hn
    rcases Box.mem_nodes_iff.mp hn with rfl | ⟨c, hc, hnc⟩
    · rw [buildTree_eq, Box.children_setChildren]
      exact le_trans (List.length_filterMap_le _ _) (le_of_eq rfl)
    · obtain ⟨b, hb, _, hcase⟩ := buildTree_children_cases hc
      rcases hcase with rfl | ⟨k2, hk, hlt, _, rfl⟩
      · rw [Box.nodes_of_children_nil (filledChild_leaf V cd hb).1, List.mem_singleton] at hnc
        subst hnc
        simp [(mem_subDivideBox8_children node b hb).1]
      · have hkk : k2 = k := by omega
        subst hkk
        exact ih _ _ (cd + 1) md n hnc

/-- C6 (as amended). Arity: every node of the tree built by `generateTree` has
at most eight children (the sub-boxes that hold a vertex), possibly none. -/
theorem generateTree_arity (boundingBox : Box) (mesh : List Vector3) (D highest : Int) :
    ∀ n ∈ (generateTree boundingBox mesh D highest).1.root.nodes, n.children.length ≤ 8 := by
  rw [generateTree_root]
  exact buildTree_arity _ _ _ 0 D

/-- The arity bound at the root of the example of the specification. -/
theorem generateTree_arity_witness :
    (generateTree exampleBounds exampleMesh 3 0).1.root ∈
        (generateTree exampleBounds exampleMesh 3 0).1.root.nodes ∧
      (generateTree exampleBounds exampleMesh 3 0).1.root.children.length ≤ 8 :=
  ⟨Box.mem_nodes_self _,
    generateTree_arity exampleBounds exampleMesh 3 0 _ (Box.mem_nodes_self _)⟩

/-- C6, counterexample. In the example of the specification the root has two
children, neither zero nor eight. -/
theorem generateTree_arity_counterexample :
    ¬ (∀ n ∈ (generateTree exampleBounds exampleMesh 3 0).1.root.nodes,
        n.children.length = 0 ∨ n.children.length = 8) := by
  decide!

/-! ## Pruning of empty sub-boxes -/

theorem any_contains_iff (V : VertexMap) (b : Box) :
    V.any (fun pair => b.contains pair.2) = true ↔ (innerVerticesOf V b).length ≠ 0 := by
  rw [Ne, List.length_eq_zero, List.any_eq_true, innerVerticesOf, List.filter_eq_nil_iff]
  constructor
  · rintro ⟨x, hx, hb⟩ h
    exact h x hx hb
  · intro h
    by_contra hcon
    exact h (fun x hx hb => hcon ⟨x, hx, hb⟩)

theorem filterMap_keepChild_bounds (recurse : Box → VertexMap → Int → Box)
    (hmin : ∀ b vl d, (recurse b vl d).min = b.min)
    (hmax : ∀ b vl d, (recurse b vl d).max = b.max)
    (V : VertexMap) (cd md : Int) (bs : List Box) :
    (bs.filterMap (keepChild recurse V cd md)).map Box.bounds =
      (bs.filter (fun b => V.any (fun pair => b.contains pair.2))).map Box.bounds := by
  induction bs with
  | nil => rfl
  | cons b bs ih =>
    rw [List.filterMap_cons, List.filter_cons, keepChild_eq]
    by_cases h : V.any (fun pair => b.contains pair.2) = true
    · have h1 := (any_contains_iff V b).mp h
      rw [if_neg h1, if_pos h]
      split_ifs <;> simp [ih, Box.bounds, hmin, hmax]
    · have h1 : (innerVerticesOf V b).length = 0 := by
        by_contra hne
        exact h ((any_contains_iff V b).mpr hne)
      rw [if_pos h1, if_neg h]
      exact ih

theorem buildTree_children_nonempty {fuel : Nat} {node : Box} {V : VertexMap} {cd md : Int}
    {c : Box} (hc : c ∈ (buildTree fuel node V cd md).children) : c.vertexIndices ≠ [] := by
  obtain ⟨b, hb, hne, hcase⟩ := buildTree_children_cases hc
  have hcv : c.vertexIndices = (innerVerticesOf V b).map Prod.fst := by
    rcases hcase with rfl | ⟨k, _, _, _, rfl⟩
    · exact (filledChild_leaf V cd hb).2
    · rw [buildTree_vertexIndices]
      exact (filledChild_leaf V cd hb).2
  rw [hcv]
  intro h
  exact hne (by rw [← List.length_map (innerVerticesOf V b) Prod.fst, h]; rfl)

/-- C5. Pruning: after `generateTreeNodes` has subdivided a node with incoming
vertex list `V`, the children of the node are, box for box and in the same
order, the sub-boxes of `subDivideBox8` that contain at least one vertex of
`V` (the loop that erases while it iterates acts as a filter); their number is
the number of such sub-boxes, and no child has an empty `vertexIndices`. -/
theorem generateTreeNodes_pruning (node : Box) (V : VertexMap) (currentDepth maxDepth : Int)
    (highest : Int) :
    ((generateTreeNodes node V currentDepth maxDepth highest).1.children.map Box.bounds =
      (prunedSubdivisions node V).map Box.bounds) ∧
    ((generateTreeNodes node V currentDepth maxDepth highest).1.children.length =
      (subDivideBox8 node).countP (fun b => V.any (fun pair => b.contains pair.2))) ∧
    (∀ c ∈ (generateTreeNodes node V currentDepth maxDepth highest).1.children,
      c.vertexIndices ≠ []) := by
  have hb : (generateTreeNodes node V currentDepth maxDepth highest).1.children.map Box.bounds =
      (prunedSubdivisions node V).map Box.bounds := by
    rw [generateTreeNodes, generateTreeNodesFuel_fst, buildTree_eq, Box.children_setChildren,
      prunedSubdivisions]
    apply filterMap_keepChild_bounds
    · intro b vl d
      cases (maxDepth - currentDepth).toNat <;> simp
    · intro b vl d
      cases (maxDepth - currentDepth).toNat <;> simp
  refine ⟨hb, ?_, ?_⟩
  · have h := congrArg List.length hb
    rw [List.length_map, List.length_map, prunedSubdivisions] at h
    rw [h, List.countP_eq_length_filter]
  · intro c hc
    rw [generateTreeNodes, generateTreeNodesFuel_fst] at hc
    exact buildTree_children_nonempty hc

mutual
theorem getIntersectingVertices_skeleton (intersect : Box → Ray → ℚ → ℚ → Bool) :
    ∀ (box : Box) (ray : Ray),
      (getIntersectingVertices intersect box ray).2.skeleton = box.skeleton
  | .mk mn mx l vi ch f, ray => by
    rw [getIntersectingVertices]
    split_ifs with h
    · rfl
    · have ih := getIntersectingVerticesChildren_skeleton intersect ch ray
      dsimp only
      split_ifs <;> simp only [Box.skeleton, ih]
    · simp only [Box.skeleton]
theorem getIntersectingVerticesChildren_skeleton (intersect : Box → Ray → ℚ → ℚ → Bool) :
    ∀ (boxes : List Box) (ray : Ray),
      Box.skeletonList (getIntersectingVerticesChildren intersect boxes ray).2 =
        Box.skeletonList boxes
  | [], _ => by simp [getIntersectingVerticesChildren]
  | b :: bs, ray => by
    rw [getIntersectingVerticesChildren]
    simp only [Box.skeletonList, getIntersectingVertices_skeleton intersect b ray,
      getIntersectingVerticesChildren_skeleton intersect bs ray]
end

/-- C10. Query frame: for every tree, point and ray (and whatever the ray-box
test `intersect` is), the tree left by `getCollision` and the tree left by
`getIntersectingVertices` have the same skeleton as the tree before the call:
bounds, level, `vertexIndices` and the children list of every node, in number
and order, are unchanged, so the trees differ at most in
`containsSelectedVertex` values. -/
theorem query_frame (intersect : Box → Ray → ℚ → ℚ → Bool) (box : Box) (point : Vector3)
    (ray : Ray) :
    (getCollision box point).2.skeleton = box.skeleton ∧
      (getIntersectingVertices intersect box ray).2.skeleton = box.skeleton :=
  ⟨getCollision_skeleton box point, getIntersectingVertices_skeleton intersect box ray⟩

/-! ## The recursion depth is never exhausted -/

theorem processChildren_congr (r1 r2 : Box → VertexMap → Int → Int → Box × Int)
    (V : VertexMap) (cd md : Int)
    (h : cd < md → ∀ b vl hd, r1 b vl (cd + 1) hd = r2 b vl (cd + 1) hd) :
    ∀ (bs : List Box) (highest : Int),
      processChildren r1 V cd md bs highest = processChildren r2 V cd md bs highest := by
  intro bs
  induction bs with
  | nil => intro highest; simp [processChildren]
  | cons b bs ih =>
    intro highest
    rw [processChildren_cons, processChildren_cons]
    split_ifs with h1 h2
    · exact ih highest
    · rw [h h2.1, ih]
    · rw [ih]

theorem generateTreeNodesFuel_congr :
    ∀ (f1 f2 : Nat) (node : Box) (V : VertexMap) (cd md highest : Int),
      (md - cd).toNat ≤ f1 → (md - cd).toNat ≤ f2 →
      generateTreeNodesFuel f1 node V cd md highest =
        generateTreeNodesFuel f2 node V cd md highest := by
  intro f1
  induction f1 with
  | zero =>
    intro f2 node V cd md highest h1 _
    have hle : ¬ cd < md := by omega
    cases f2 with
    | zero => rfl
    | succ k =>
      rw [generateTreeNodesFuel, generateTreeNodesFuel, generateTreeNodesBody_eq,
        generateTreeNodesBody_eq]
      rw [processChildren_congr _ _ V cd md (fun hlt => absurd hlt hle)]
  | succ k ih =>
    intro f2 node V cd md highest h1 h2
    cases f2 with
    | zero =>
      have hle : ¬ cd < md := by omega
      rw [generateTreeNodesFuel, generateTreeNodesFuel, generateTreeNodesBody_eq,
        generateTreeNodesBody_eq]
      rw [processChildren_congr _ _ V cd md (fun hlt => absurd hlt hle)]
    | succ k2 =>
      rw [generateTreeNodesFuel, generateTreeNodesFuel, generateTreeNodesBody_eq,
        generateTreeNodesBody_eq]
      have hcg := processChildren_congr
        (fun b vl cd hd => generateTreeNodesFuel k b vl cd md hd)
        (fun b vl cd hd => generateTreeNodesFuel k2 b vl cd md hd) V cd md
        (fun hlt b vl hd => ih k2 b vl (cd + 1) md hd (by omega) (by omega))
      rw [hcg]

/-- A recursion depth of `maxDepth - currentDepth` is enough: any larger bound
gives the result of `generateTreeNodes`. -/
theorem generateTreeNodesFuel_stable (fuel : Nat) (node : Box) (V : VertexMap)
    (cd md highest : Int) (h : (md - cd).toNat ≤ fuel) :
    generateTreeNodesFuel fuel node V cd md highest = generateTreeNodes node V cd md highest :=
  generateTreeNodesFuel_congr fuel (md - cd).toNat node V cd md highest h (le_refl _)

/-! ## Vertex membership -/

theorem map_fst_innerVerticesOf (mesh : List Vector3) (V : VertexMap) (b c : Box)
    (hV : ∀ pair ∈ V, mesh[pair.1]? = some pair.2)
    (hmin : c.min = b.min) (hmax : c.max = b.max) :
    (innerVerticesOf V b).map Prod.fst = (V.map Prod.fst).filter (vertexInBox mesh c) := by
  induction V with
  | nil => rfl
  | cons p ps ih =>
    have hp : vertexInBox mesh c p.1 = b.contains p.2 := by
      rw [vertexInBox, hV p (List.mem_cons_self _ _)]
      exact Box.contains_congr hmin hmax p.2
    have ih2 := ih (fun q hq => hV q (List.mem_cons_of_mem _ hq))
    simp only [innerVerticesOf] at ih2 ⊢
    rw [List.map_cons, List.filter_cons, List.filter_cons, hp]
    split_ifs <;> simp [ih2]

theorem buildTree_membership (mesh : List Vector3) :
    ∀ (fuel : Nat) (node : Box) (V : VertexMap) (cd md : Int),
      (∀ pair ∈ V, mesh[pair.1]? = some pair.2) →
      ∀ c ∈ (buildTree fuel node V cd md).children,
        c.vertexIndices = (V.map Prod.fst).filter (vertexInBox mesh c) ∧
        ∀ n ∈ c.nodes, ∀ d ∈ n.children,
          d.vertexIndices = n.vertexIndices.filter (vertexInBox mesh d) := by
  intro fuel
  induction fuel with
  | zero =>
    intro node V cd md hV c hc
    obtain ⟨b, hb, _, hcase⟩ := buildTree_children_cases hc
    rcases hcase with rfl | ⟨k, hk, _⟩
    · refine ⟨?_, ?_⟩
      · rw [(filledChild_leaf V cd hb).2]
        exact map_fst_innerVerticesOf mesh V b _ hV (by simp) (by simp)
      · intro n hn d hd
        rw [Box.nodes_of_children_nil (filledChild_leaf V cd hb).1, List.mem_singleton] at hn
        subst hn
        rw [(filledChild_leaf V cd hb).1] at hd
        exact absurd hd (List.not_mem_nil _)
    · omega
  | succ k ih =>
    intro node V cd md hV c hc
    obtain ⟨b, hb, _, hcase⟩ := buildTree_children_cases hc
    rcases hcase with rfl | ⟨k2, hk, _, _, rfl⟩
    · refine ⟨?_, ?_⟩
      · rw [(filledChild_leaf V cd hb).2]
        exact map_fst_innerVerticesOf mesh V b _ hV (by simp) (by simp)
      · intro n hn d hd
        rw [Box.nodes_of_children_nil (filledChild_leaf V cd hb).1, List.mem_singleton] at hn
        subst hn
        rw [(filledChild_leaf V cd hb).1] at hd
        exact absurd hd (List.not_mem_nil _)
    · have hkk : k2 = k := by omega
      subst hkk
      have hV2 : ∀ pair ∈ innerVerticesOf V b, mesh[pair.1]? = some pair.2 :=
        fun pair hp => hV pair (mem_innerVerticesOf.mp hp).1
      have ihc := ih (filledChild V cd b) (innerVerticesOf V b) (cd + 1) md hV2
      refine ⟨?_, ?_⟩
      · rw [buildTree_vertexIndices, (filledChild_leaf V cd hb).2]
        exact map_fst_innerVerticesOf mesh V b _ hV (by simp) (by simp)
      · intro n hn d hd
        rcases Box.mem_nodes_iff.mp hn with rfl | ⟨c2, hc2, hn2⟩
        · rw [buildTree_vertexIndices, (filledChild_leaf V cd hb).2]
          exact (ihc d hd).1
        · exact (ihc c2 hc2).2 n hn2 d hd

theorem generateTree_membership_below (boundingBox : Box) (mesh : List Vector3)
    (D highest : Int) :
    ∀ c ∈ (generateTree boundingBox mesh D highest).1.root.children,
      c.vertexIndices = (List.range mesh.length).filter (vertexInBox mesh c) ∧
      ∀ n ∈ c.nodes, ∀ d ∈ n.children,
        d.vertexIndices = n.vertexIndices.filter (vertexInBox mesh d) := by
  rw [generateTree_root]
  intro c hc
  have h := buildTree_membership mesh D.toNat boundingBox mesh.enum 0 D
    (fun pair hp => List.mem_enum_iff_getElem?.mp hp) c hc
  rwa [List.enum_map_fst] at h

/-- C8 (as amended). Vertex membership: in the tree built by `generateTree`
the `vertexIndices` of every child of the root is the list of the indices of
all input vertices that lie within the child's bounds, in ascending order, and
the `vertexIndices` of every node below is the list of those indices of its
parent's `vertexIndices` whose vertex lies within the node's bounds. The
`vertexIndices` of the root is not computed: it is left as the bounding box
passed in had it. -/
theorem generateTree_vertex_membership (boundingBox : Box) (mesh : List Vector3)
    (D highest : Int) :
    (∀ c ∈ (generateTree boundingBox mesh D highest).1.root.children,
      c.vertexIndices = (List.range mesh.length).filter (vertexInBox mesh c) ∧
      ∀ n ∈ c.nodes, ∀ d ∈ n.children,
        d.vertexIndices = n.vertexIndices.filter (vertexInBox mesh d)) ∧
    (generateTree boundingBox mesh D highest).1.root.vertexIndices =
      boundingBox.vertexIndices := by
  refine ⟨generateTree_membership_below boundingBox mesh D highest, ?_⟩
  rw [generateTree_root]
  exact buildTree_vertexIndices _ _ _ _ _

/-- C8, counterexample. In the example of the specification both vertices lie
within the bounds of the root, and the `vertexIndices` of the root is empty. -/
theorem generateTree_vertex_membership_counterexample :
    (generateTree exampleBounds exampleMesh 3 0).1.root.vertexIndices ≠
      (List.range exampleMesh.length).filter
        (vertexInBox exampleMesh (generateTree exampleBounds exampleMesh 3 0).1.root) := by
  decide!

/-! ## Induction over trees and the result of a query -/

mutual
theorem Box.induction_node {P : Box → Prop} (h : ∀ t, (∀ c ∈ t.children, P c) → P t) :
    ∀ t, P t
  | .mk mn mx l vi ch f => h (.mk mn mx l vi ch f) (Box.induction_list h ch)
theorem Box.induction_list {P : Box → Prop} (h : ∀ t, (∀ c ∈ t.children, P c) → P t) :
    ∀ (ts : List Box), ∀ c ∈ ts, P c
  | [], c, hc => absurd hc (List.not_mem_nil c)
  | b :: bs, c, hc => by
    rcases List.mem_cons.mp hc with h1 | h1
    · rw [h1]; exact Box.induction_node h b
    · exact Box.induction_list h bs c h1
end

theorem Box.nodesList_eq (bs : List Box) : Box.nodesList bs = (bs.map Box.nodes).flatten := by
  induction bs with
  | nil => rfl
  | cons b bs ih => simp [Box.nodesList, ih]

theorem queryResultList_eq (hit : Box → Bool) (cs : List Box) :
    queryResultList hit cs = (cs.map (queryResult hit)).flatten := by
  induction cs with
  | nil => rfl
  | cons c cs ih => simp [queryResultList, ih]

theorem queryResult_eq (hit : Box → Bool) (t : Box) :
    queryResult hit t =
      if hit t then
        if t.vertexIndices.length = 1 then t.vertexIndices
        else (t.children.map (queryResult hit)).flatten
      else [] := by
  cases t with
  | mk mn mx l vi ch f =>
    rw [queryResult, queryResultList_eq]
    rfl

theorem singleton_get_zero (vi : List Nat) (h : vi.length = 1) (h0 : 0 < vi.length) :
    [vi.get ⟨0, h0⟩] = vi := by
  match vi, h with
  | [v], _ => rfl

mutual
theorem getCollision_fst (point : Vector3) : ∀ (box : Box),
    (getCollision box point).1 = queryResult (fun b => b.contains point) box
  | .mk mn mx l vi ch f => by
    rw [getCollision, queryResult]
    have ih := getCollisionChildren_fst point ch
    split_ifs with h1 h2
    · exact singleton_get_zero vi h2 _
    · dsimp only
      split_ifs with h3
      · rw [← ih, List.length_eq_zero.mp h3]
      · exact ih
    · rfl
theorem getCollisionChildren_fst (point : Vector3) : ∀ (boxes : List Box),
    (getCollisionChildren boxes point).1 = queryResultList (fun b => b.contains point) boxes
  | [] => by simp [getCollisionChildren, queryResultList]
  | b :: bs => by
    rw [getCollisionChildren, queryResultList]
    simp only [getCollision_fst point b, getCollisionChildren_fst point bs]
end

mutual
theorem getIntersectingVertices_fst (intersect : Box → Ray → ℚ → ℚ → Bool) (ray : Ray) :
    ∀ (box : Box), (getIntersectingVertices intersect box ray).1 =
      queryResult (fun b => intersect b ray 0 100) box
  | .mk mn mx l vi ch f => by
    rw [getIntersectingVertices, queryResult]
    have ih := getIntersectingVerticesChildren_fst intersect ray ch
    split_ifs with h1 h2
    · exact singleton_get_zero vi h2 _
    · dsimp only
      split_ifs with h3
      · rw [← ih, List.length_eq_zero.mp h3]
      · exact ih
    · rfl
theorem getIntersectingVerticesChildren_fst (intersect : Box → Ray → ℚ → ℚ → Bool) (ray : Ray) :
    ∀ (boxes : List Box), (getIntersectingVerticesChildren intersect boxes ray).1 =
      queryResultList (fun b => intersect b ray 0 100) boxes
  | [] => by simp [getIntersectingVerticesChildren, queryResultList]
  | b :: bs => by
    rw [getIntersectingVerticesChildren, queryResultList]
    simp only [getIntersectingVertices_fst intersect ray b,
      getIntersectingVerticesChildren_fst intersect ray bs]
end

theorem Box.mem_nodes_of_child {t c n : Box} (hc : c ∈ t.children) (hn : n ∈ c.nodes) :
    n ∈ t.nodes :=
  Box.mem_nodes_iff.mpr (Or.inr ⟨c, hc, hn⟩)

theorem Box.nodes_trans : ∀ (t : Box), ∀ n ∈ t.nodes, ∀ m ∈ n.nodes, m ∈ t.nodes := by
  intro t
  induction t using Box.induction_node with
  | h t ih =>
    intro n hn m hm
    rcases Box.mem_nodes_iff.mp hn with rfl | ⟨c, hc, hnc⟩
    · exact hm
    · exact Box.mem_nodes_of_child hc (ih c hc n hnc m hm)

theorem queryResult_subset (hit : Box → Bool) :
    ∀ (t : Box), ∀ i ∈ queryResult hit t, ∃ m ∈ t.nodes, i ∈ m.vertexIndices := by
  intro t
  induction t using Box.induction_node with
  | h t ih =>
    intro i hi
    rw [queryResult_eq] at hi
    split_ifs at hi with h1 h2
    · exact ⟨t, Box.mem_nodes_self t, hi⟩
    · obtain ⟨l, hl, hil⟩ := List.mem_flatten.mp hi
      obtain ⟨c, hc, rfl⟩ := List.mem_map.mp hl
      obtain ⟨m, hm, him⟩ := ih c hc i hil
      exact ⟨m, Box.mem_nodes_of_child hc hm, him⟩
    · exact absurd hi (List.not_mem_nil i)

theorem queryResult_nodup (hit : Box → Bool) :
    ∀ (t : Box), (∀ n ∈ t.nodes, n.children.Pairwise subtreesDisjoint) →
      (queryResult hit t).Nodup := by
  intro t
  induction t using Box.induction_node with
  | h t ih =>
    intro hdis
    rw [queryResult_eq]
    split_ifs with h1 h2
    · match hv : t.vertexIndices, h2 with
      | [v], _ => exact List.nodup_singleton v
    · rw [List.nodup_flatten]
      refine ⟨?_, ?_⟩
      · intro l hl
        obtain ⟨c, hc, rfl⟩ := List.mem_map.mp hl
        exact ih c hc (fun n hn => hdis n (Box.mem_nodes_of_child hc hn))
      · rw [List.pairwise_map]
        refine (hdis t (Box.mem_nodes_self t)).imp ?_
        intro a b hab
        rw [List.disjoint_left]
        intro i hia hib
        obtain ⟨m, hm, him⟩ := queryResult_subset hit a i hia
        obtain ⟨m2, hm2, him2⟩ := queryResult_subset hit b i hib
        exact hab m hm m2 hm2 i him him2
    · exact List.nodup_nil

/-! ## Uniqueness of the returned indices -/

theorem Box.leaves_subset {t x : Box} (h : x ∈ t.leaves) : x ∈ t.nodes :=
  (List.mem_filter.mp h).1

theorem Box.leaves_eq (t : Box) :
    t.leaves =
      if t.children.isEmpty then [t] else (t.children.map Box.leaves).flatten := by
  rw [Box.leaves, Box.nodes_eq, List.filter_cons]
  split_ifs with h1
  · rw [List.isEmpty_iff.mp h1]; rfl
  · rw [Box.nodesList_eq, List.filter_flatten, List.map_map]
    rfl

theorem Box.leaves_pairwise :
    ∀ (t : Box), (∀ n ∈ t.nodes, n.children.Pairwise subtreesDisjoint) →
      t.leaves.Pairwise disjointIndices := by
  intro t
  induction t using Box.induction_node with
  | h t ih =>
    intro hdis
    rw [Box.leaves_eq]
    split_ifs with h1
    · exact List.pairwise_singleton _ _
    · rw [List.pairwise_flatten]
      refine ⟨?_, ?_⟩
      · intro l hl
        obtain ⟨c, hc, rfl⟩ := List.mem_map.mp hl
        exact ih c hc (fun n hn => hdis n (Box.mem_nodes_of_child hc hn))
      · rw [List.pairwise_map]
        refine (hdis t (Box.mem_nodes_self t)).imp ?_
        intro a b hab x hx y hy
        exact hab x (Box.leaves_subset hx) y (Box.leaves_subset hy)

theorem Box.indices_subset_root :
    ∀ (a : Box), (∀ n ∈ a.nodes, ∀ d ∈ n.children, ∀ i ∈ d.vertexIndices, i ∈ n.vertexIndices) →
      ∀ m ∈ a.nodes, ∀ i ∈ m.vertexIndices, i ∈ a.vertexIndices := by
  intro a
  induction a using Box.induction_node with
  | h a ih =>
    intro hsub m hm i hi
    rcases Box.mem_nodes_iff.mp hm with rfl | ⟨c, hc, hmc⟩
    · exact hi
    · have h1 := ih c hc (fun n hn => hsub n (Box.mem_nodes_of_child hc hn)) m hmc i hi
      exact hsub a (Box.mem_nodes_self a) c hc i h1

theorem generateTree_subtree_indices (boundingBox : Box) (mesh : List Vector3) (D highest : Int)
    {n a : Box} (hn : n ∈ (generateTree boundingBox mesh D highest).1.root.nodes)
    (ha : a ∈ n.children) :
    ∀ m ∈ a.nodes, ∀ i ∈ m.vertexIndices, i ∈ a.vertexIndices := by
  have hmem := fun c hc =>
    (generateTree_membership_below boundingBox mesh D highest c hc).2
  obtain ⟨c, hc, hac⟩ : ∃ c ∈ (generateTree boundingBox mesh D highest).1.root.children,
      a ∈ c.nodes := by
    rcases Box.mem_nodes_iff.mp hn with rfl | ⟨c, hc, hnc⟩
    · exact ⟨a, ha, Box.mem_nodes_self a⟩
    · exact ⟨c, hc, Box.nodes_trans c n hnc a (Box.mem_nodes_of_child ha (Box.mem_nodes_self a))⟩
  apply Box.indices_subset_root
  intro n2 hn2 d hd i hi
  have h := hmem c hc n2 (Box.nodes_trans c a hac n2 hn2) d hd
  rw [h] at hi
  exact (List.mem_filter.mp hi).1

theorem generateTree_subtreesDisjoint (boundingBox : Box) (mesh : List Vector3)
    (D highest : Int)
    (hsib : siblingsDisjoint (generateTree boundingBox mesh D highest).1.root) :
    ∀ n ∈ (generateTree boundingBox mesh D highest).1.root.nodes,
      n.children.Pairwise subtreesDisjoint := by
  intro n hn
  refine (hsib n hn).imp_of_mem ?_
  intro a b ha hb hab m hm m2 hm2 i hi hi2
  exact hab i (generateTree_subtree_indices boundingBox mesh D highest hn ha m hm i hi)
    (generateTree_subtree_indices boundingBox mesh D highest hn hb m2 hm2 i hi2)

/-- C7 (as amended). Uniqueness: if in the tree built by `generateTree` no two
children of a node share a vertex index (no vertex lies in two of the
sub-boxes of a subdivided node), then no two leaves share a vertex index, and
for every query point and every ray (whatever the ray-box test is) the list
returned by `getCollision` and the list returned by `getIntersectingVertices`
contain no vertex index twice. -/
theorem generateTree_unique_indices (boundingBox : Box) (mesh : List Vector3) (D highest : Int)
    (intersect : Box → Ray → ℚ → ℚ → Bool) (point : Vector3) (ray : Ray)
    (hsib : siblingsDisjoint (generateTree boundingBox mesh D highest).1.root) :
    (generateTree boundingBox mesh D highest).1.root.leaves.Pairwise disjointIndices ∧
    (getCollision (generateTree boundingBox mesh D highest).1.root point).1.Nodup ∧
    (getIntersectingVertices intersect (generateTree boundingBox mesh D highest).1.root
      ray).1.Nodup := by
  have h := generateTree_subtreesDisjoint boundingBox mesh D highest hsib
  refine ⟨Box.leaves_pairwise _ h, ?_, ?_⟩
  · rw [getCollision_fst]
    exact queryResult_nodup _ _ h
  · rw [getIntersectingVertices_fst]
    exact queryResult_nodup _ _ h

/-- In the example of the specification no vertex lies in two sub-boxes, and
`generateTree_unique_indices` applies. -/
theorem generateTree_unique_indices_witness :
    siblingsDisjoint (generateTree exampleBounds exampleMesh 3 0).1.root ∧
    (getCollision (generateTree exampleBounds exampleMesh 3 0).1.root ⟨1/2, 1/2, 1/2⟩).1.Nodup :=
  ⟨by decide!,
    (generateTree_unique_indices exampleBounds exampleMesh 3 0 (fun _ _ _ _ => true)
      ⟨1/2, 1/2, 1/2⟩ ⟨⟨0, 0, 0⟩, ⟨0, -1, 0⟩⟩ (by decide!)).2.1⟩

/-- C7, counterexample. A single vertex at the centre `(1,1,1)` of the bounds
`[(0,0,0),(2,2,2)]` lies in all eight sub-boxes: its index is placed in eight
leaves and `getCollision` at that point returns it eight times. -/
theorem generateTree_unique_indices_counterexample :
    ¬ ((generateTree exampleBounds [⟨1, 1, 1⟩] 3 0).1.root.leaves.Pairwise disjointIndices) ∧
    (getCollision (generateTree exampleBounds [⟨1, 1, 1⟩] 3 0).1.root ⟨1, 1, 1⟩).1 =
      [0, 0, 0, 0, 0, 0, 0, 0] ∧
    ¬ (getCollision (generateTree exampleBounds [⟨1, 1, 1⟩] 3 0).1.root ⟨1, 1, 1⟩).1.Nodup := by
  decide!

/-! ## Build and point query -/

/-- C2, failing input. Bounds `[(0,0,0),(4,4,4)]`, vertices `(0.25,0.25,0.25)`
and `(0.75,0.75,0.75)`, maximum depth `1`: both vertices end in one leaf of
level `2`, and `getCollision` at the position of vertex `0`, which lies inside
the bounding box, returns the empty list. -/
theorem getCollision_round_trip_failing_input :
    crowdedBounds.contains ⟨1/4, 1/4, 1/4⟩ = true ∧
    ((generateTree crowdedBounds crowdedMesh 1 0).1.root.leaves.map Box.vertexIndices =
      [[0, 1]]) ∧
    (getCollision (generateTree crowdedBounds crowdedMesh 1 0).1.root ⟨1/4, 1/4, 1/4⟩).1 =
      [] := by
  decide!

/-! ## The bounding box of a mesh -/

theorem meshBoundsAxis_spec (mx mn v : ℚ) (h : mn ≤ mx) :
    (meshBoundsAxis mx mn v).1 = max mx v ∧ (meshBoundsAxis mx mn v).2 = min mn v := by
  unfold meshBoundsAxis
  split_ifs with h1 h2
  · exact ⟨(max_eq_right (le_of_lt h1)).symm, (min_eq_left (by linarith)).symm⟩
  · exact ⟨(max_eq_left (by linarith)).symm, (min_eq_right (le_of_lt h2)).symm⟩
  · exact ⟨(max_eq_left (by linarith)).symm, (min_eq_left (by linarith)).symm⟩

theorem meshBoundsStep_spec (s : Vector3 × Vector3) (v : Vector3) (h : s.2.le s.1) :
    (meshBoundsStep s v).1 = ⟨max s.1.x v.x, max s.1.y v.y, max s.1.z v.z⟩ ∧
    (meshBoundsStep s v).2 = ⟨min s.2.x v.x, min s.2.y v.y, min s.2.z v.z⟩ := by
  obtain ⟨hx, hy, hz⟩ := h
  simp only [meshBoundsStep, (meshBoundsAxis_spec _ _ v.x hx).1, (meshBoundsAxis_spec _ _ v.x hx).2,
    (meshBoundsAxis_spec _ _ v.y hy).1, (meshBoundsAxis_spec _ _ v.y hy).2,
    (meshBoundsAxis_spec _ _ v.z hz).1, (meshBoundsAxis_spec _ _ v.z hz).2, and_self]

theorem meshBoundsStep_le (s : Vector3 × Vector3) (v : Vector3) (h : s.2.le s.1) :
    (meshBoundsStep s v).2.le (meshBoundsStep s v).1 := by
  rw [(meshBoundsStep_spec s v h).1, (meshBoundsStep_spec s v h).2]
  obtain ⟨hx, hy, hz⟩ := h
  exact ⟨le_trans (min_le_left _ _) (le_trans hx (le_max_left _ _)),
    le_trans (min_le_left _ _) (le_trans hy (le_max_left _ _)),
    le_trans (min_le_left _ _) (le_trans hz (le_max_left _ _))⟩

/-- The state of the loop after any number of vertices: `min ≤ max`; on the
axis read by `f` the corner `min` is below the start value and every vertex
seen and is one of them, and `max` likewise from above. -/
theorem meshBounds_fold (f : Vector3 → ℚ)
    (hmax : ∀ s v, s.2.le s.1 → f (meshBoundsStep s v).1 = max (f s.1) (f v))
    (hmin : ∀ s v, s.2.le s.1 → f (meshBoundsStep s v).2 = min (f s.2) (f v)) :
    ∀ (rest : List Vector3) (s : Vector3 × Vector3), s.2.le s.1 →
      (rest.foldl meshBoundsStep s).2.le (rest.foldl meshBoundsStep s).1 ∧
      (f (rest.foldl meshBoundsStep s).2 ≤ f s.2 ∧
        (∀ w ∈ rest, f (rest.foldl meshBoundsStep s).2 ≤ f w) ∧
        (f (rest.foldl meshBoundsStep s).2 = f s.2 ∨
          ∃ w ∈ rest, f w = f (rest.foldl meshBoundsStep s).2)) ∧
      (f s.1 ≤ f (rest.foldl meshBoundsStep s).1 ∧
        (∀ w ∈ rest, f w ≤ f (rest.foldl meshBoundsStep s).1) ∧
        (f (rest.foldl meshBoundsStep s).1 = f s.1 ∨
          ∃ w ∈ rest, f w = f (rest.foldl meshBoundsStep s).1)) := by
  intro rest
  induction rest with
  | nil =>
    intro s hs
    exact ⟨hs, ⟨le_refl _, fun w hw => absurd hw (List.not_mem_nil w), Or.inl rfl⟩,
      le_refl _, fun w hw => absurd hw (List.not_mem_nil w), Or.inl rfl⟩
  | cons v rest ih =>
    intro s hs
    obtain ⟨hle, ⟨hlo, hlow, hloa⟩, hhi, hhiw, hhia⟩ := ih (meshBoundsStep s v)
      (meshBoundsStep_le s v hs)
    rw [hmin s v hs] at hlo hloa
    rw [hmax s v hs] at hhi hhia
    rw [List.foldl_cons]
    refine ⟨hle, ⟨le_trans hlo (min_le_left _ _), ?_, ?_⟩, le_trans (le_max_left _ _) hhi, ?_, ?_⟩
    · intro w hw
      rcases List.mem_cons.mp hw with rfl | hw
      · exact le_trans hlo (min_le_right _ _)
      · exact hlow w hw
    · rcases hloa with h | ⟨w, hw, h⟩
      · rcases min_choice (f s.2) (f v) with hc | hc
        · left; rw [h, hc]
        · right; exact ⟨v, List.mem_cons_self _ _, by rw [h, hc]⟩
      · right; exact ⟨w, List.mem_cons_of_mem _ hw, h⟩
    · intro w hw
      rcases List.mem_cons.mp hw with rfl | hw
      · exact le_trans (le_max_right _ _) hhi
      · exact hhiw w hw
    · rcases hhia with h | ⟨w, hw, h⟩
      · rcases max_choice (f s.1) (f v) with hc | hc
        · left; rw [h, hc]
        · right; exact ⟨v, List.mem_cons_self _ _, by rw [h, hc]⟩
      · right; exact ⟨w, List.mem_cons_of_mem _ hw, h⟩

/-- On one axis: the corners of the result of the loop started at `(v, v)`
bound every vertex of `v :: rest` and are attained by one of them. -/
theorem meshBounds_axis (f : Vector3 → ℚ)
    (hmax : ∀ s v, s.2.le s.1 → f (meshBoundsStep s v).1 = max (f s.1) (f v))
    (hmin : ∀ s v, s.2.le s.1 → f (meshBoundsStep s v).2 = min (f s.2) (f v))
    (v : Vector3) (rest : List Vector3) :
    (∀ w ∈ v :: rest, f (rest.foldl meshBoundsStep (v, v)).2 ≤ f w ∧
      f w ≤ f (rest.foldl meshBoundsStep (v, v)).1) ∧
    (∃ w ∈ v :: rest, f w = f (rest.foldl meshBoundsStep (v, v)).2) ∧
    (∃ w ∈ v :: rest, f w = f (rest.foldl meshBoundsStep (v, v)).1) := by
  have hvv : (v, v).2.le (v, v).1 := ⟨le_refl _, le_refl _, le_refl _⟩
  obtain ⟨_, ⟨hlo, hlow, hloa⟩, hhi, hhiw, hhia⟩ := meshBounds_fold f hmax hmin rest (v, v) hvv
  refine ⟨?_, ?_, ?_⟩
  · intro w hw
    rcases List.mem_cons.mp hw with rfl | hw
    · exact ⟨hlo, hhi⟩
    · exact ⟨hlow w hw, hhiw w hw⟩
  · rcases hloa with h | ⟨w, hw, h⟩
    · exact ⟨v, List.mem_cons_self _ _, h.symm⟩
    · exact ⟨w, List.mem_cons_of_mem _ hw, h⟩
  · rcases hhia with h | ⟨w, hw, h⟩
    · exact ⟨v, List.mem_cons_self _ _, h.symm⟩
    · exact ⟨w, List.mem_cons_of_mem _ hw, h⟩

theorem forall₂_writtenAs_replicate : ∀ (fs : List Bool),
    List.Forall₂ writtenAs (List.replicate fs.length none) fs
  | [] => List.Forall₂.nil
  | f :: fs => List.Forall₂.cons (fun _ h => by cases h) (forall₂_writtenAs_replicate fs)

theorem Box.flags_mk (mn mx : Vector3) (l : Int) (vi : List Nat) (ch : List Box) (f : Bool) :
    (Box.mk mn mx l vi ch f).flags =
      f :: (Box.nodesList ch).map Box.containsSelectedVertex := by
  simp [Box.flags, Box.nodes, Box.containsSelectedVertex]

theorem forall₂_writtenAs_unvisited (w : Option Bool) (f : Bool) (hw : writtenAs w f)
    (ch : List Box) :
    List.Forall₂ writtenAs (w :: List.replicate (Box.nodesList ch).length none)
      (f :: (Box.nodesList ch).map Box.containsSelectedVertex) := by
  refine List.Forall₂.cons hw ?_
  have h := forall₂_writtenAs_replicate ((Box.nodesList ch).map Box.containsSelectedVertex)
  rwa [List.length_map] at h

mutual
theorem getCollision_writes (point : Vector3) : ∀ (box : Box),
    List.Forall₂ writtenAs (queryWrites (fun b => b.contains point) box)
      (getCollision box point).2.flags
  | .mk mn mx l vi ch f => by
    rw [getCollision, queryWrites]
    have ih := getCollisionChildren_writes point ch
    have hfst := getCollisionChildren_fst point ch
    split_ifs with h1 h2 h3
    · rw [Box.flags_mk]
      exact forall₂_writtenAs_unvisited none f (fun _ h => by cases h) ch
    · dsimp only
      rw [if_pos (by rw [hfst]; exact h3), Box.flags_mk]
      exact List.Forall₂.cons (fun _ h => by cases h) ih
    · dsimp only
      rw [if_neg (by rw [hfst]; exact h3), Box.flags_mk]
      exact List.Forall₂.cons (fun v h => by cases h; rfl) ih
    · rw [Box.flags_mk]
      exact forall₂_writtenAs_unvisited (some false) false (fun v h => by cases h; rfl) ch
theorem getCollisionChildren_writes (point : Vector3) : ∀ (boxes : List Box),
    List.Forall₂ writtenAs (queryWritesList (fun b => b.contains point) boxes)
      ((Box.nodesList (getCollisionChildren boxes point).2).map Box.containsSelectedVertex)
  | [] => by
    simp [getCollisionChildren, queryWritesList, Box.nodesList]
  | b :: bs => by
    rw [getCollisionChildren, queryWritesList]
    simp only [Box.nodesList, List.map_append]
    exact List.rel_append (getCollision_writes point b) (getCollisionChildren_writes point bs)
end

mutual
theorem getIntersectingVertices_writes (intersect : Box → Ray → ℚ → ℚ → Bool) (ray : Ray) :
    ∀ (box : Box),
      List.Forall₂ writtenAs (queryWrites (fun b => intersect b ray 0 100) box)
        (getIntersectingVertices intersect box ray).2.flags
  | .mk mn mx l vi ch f => by
    rw [getIntersectingVertices, queryWrites]
    have ih := getIntersectingVerticesChildren_writes intersect ray ch
    have hfst := getIntersectingVerticesChildren_fst intersect ray ch
    split_ifs with h1 h2 h3
    · rw [Box.flags_mk]
      exact forall₂_writtenAs_unvisited none f (fun _ h => by cases h) ch
    · dsimp only
      rw [if_pos (by rw [hfst]; exact h3), Box.flags_mk]
      exact List.Forall₂.cons (fun _ h => by cases h) ih
    · dsimp only
      rw [if_neg (by rw [hfst]; exact h3), Box.flags_mk]
      exact List.Forall₂.cons (fun v h => by cases h; rfl) ih
    · rw [Box.flags_mk]
      exact forall₂_writtenAs_unvisited (some false) false (fun v h => by cases h; rfl) ch
theorem getIntersectingVerticesChildren_writes (intersect : Box → Ray → ℚ → ℚ → Bool)
    (ray : Ray) : ∀ (boxes : List Box),
      List.Forall₂ writtenAs (queryWritesList (fun b => intersect b ray 0 100) boxes)
        ((Box.nodesList (getIntersectingVerticesChildren intersect boxes ray).2).map
          Box.containsSelectedVertex)
  | [] => by
    simp [getIntersectingVerticesChildren, queryWritesList, Box.nodesList]
  | b :: bs => by
    rw [getIntersectingVerticesChildren, queryWritesList]
    simp only [Box.nodesList, List.map_append]
    exact List.rel_append (getIntersectingVertices_writes intersect ray b)
      (getIntersectingVerticesChildren_writes intersect ray bs)
end

theorem Box.skeleton_mk (mn mx : Vector3) (l : Int) (vi : List Nat) (ch : List Box) (f : Bool) :
    (Box.mk mn mx l vi ch f).skeleton = Box.mk mn mx l vi (Box.skeletonList ch) false := by
  rw [Box.skeleton]

theorem Box.contains_skeleton (t : Box) (p : Vector3) : t.skeleton.contains p = t.contains p := by
  cases t with
  | mk mn mx l vi ch f => rw [Box.skeleton_mk]; rfl

mutual
theorem Box.nodes_length_skeleton : ∀ (t : Box), t.skeleton.nodes.length = t.nodes.length
  | .mk mn mx l vi ch f => by
    rw [Box.skeleton_mk, Box.nodes, Box.nodes, List.length_cons, List.length_cons,
      Box.nodesList_length_skeleton ch]
theorem Box.nodesList_length_skeleton : ∀ (ts : List Box),
    (Box.nodesList (Box.skeletonList ts)).length = (Box.nodesList ts).length
  | [] => by simp [Box.skeletonList]
  | b :: bs => by
    rw [Box.skeletonList, Box.nodesList, Box.nodesList, List.length_append, List.length_append,
      Box.nodes_length_skeleton b, Box.nodesList_length_skeleton bs]
end

mutual
theorem queryResult_skeleton (hit : Box → Bool) (hhit : ∀ t, hit t.skeleton = hit t) :
    ∀ (t : Box), queryResult hit t.skeleton = queryResult hit t
  | .mk mn mx l vi ch f => by
    have h := hhit (.mk mn mx l vi ch f)
    rw [Box.skeleton_mk] at h ⊢
    rw [queryResult, queryResult, h, queryResultList_skeleton hit hhit ch]
theorem queryResultList_skeleton (hit : Box → Bool) (hhit : ∀ t, hit t.skeleton = hit t) :
    ∀ (ts : List Box), queryResultList hit (Box.skeletonList ts) = queryResultList hit ts
  | [] => by simp [Box.skeletonList]
  | b :: bs => by
    rw [Box.skeletonList, queryResultList, queryResultList, queryResult_skeleton hit hhit b,
      queryResultList_skeleton hit hhit bs]
end

mutual
theorem queryWrites_skeleton (hit : Box → Bool) (hhit : ∀ t, hit t.skeleton = hit t) :
    ∀ (t : Box), queryWrites hit t.skeleton = queryWrites hit t
  | .mk mn mx l vi ch f => by
    have h := hhit (.mk mn mx l vi ch f)
    rw [Box.skeleton_mk] at h ⊢
    rw [queryWrites, queryWrites, h, queryWritesList_skeleton hit hhit ch,
      queryResultList_skeleton hit hhit ch, Box.nodesList_length_skeleton ch]
theorem queryWritesList_skeleton (hit : Box → Bool) (hhit : ∀ t, hit t.skeleton = hit t) :
    ∀ (ts : List Box), queryWritesList hit (Box.skeletonList ts) = queryWritesList hit ts
  | [] => by simp [Box.skeletonList]
  | b :: bs => by
    rw [Box.skeletonList, queryWritesList, queryWritesList, queryWrites_skeleton hit hhit b,
      queryWritesList_skeleton hit hhit bs]
end

theorem query_agree_of_skeleton (hit : Box → Bool) (hhit : ∀ t, hit t.skeleton = hit t)
    {a b : Box} (hab : a.skeleton = b.skeleton) :
    queryResult hit a = queryResult hit b ∧ queryWrites hit a = queryWrites hit b := by
  constructor
  · rw [← queryResult_skeleton hit hhit a, hab, queryResult_skeleton hit hhit b]
  · rw [← queryWrites_skeleton hit hhit a, hab, queryWrites_skeleton hit hhit b]

/-- C11 (as amended). For a query (`getCollision` with a point, or
`getIntersectingVertices` with a ray and a ray-box test that does not read the
flags) and two trees `a` and `b` that are equal except for their
`containsSelectedVertex` values, the returned lists are equal, and at every
node where the query writes the flag (`false` at a visited box that fails the
test, `true` at a visited box whose children return a non-empty list) the value
after the query is the written one in both trees. `queryWrites … a` lists the
writes node by node in preorder; it is the same list for `b`. -/
theorem query_flags_agree (intersect : Box → Ray → ℚ → ℚ → Bool) (a b : Box)
    (point : Vector3) (ray : Ray) (hab : a.skeleton = b.skeleton)
    (hray : ∀ t : Box, intersect t.skeleton ray 0 100 = intersect t ray 0 100) :
    ((getCollision a point).1 = (getCollision b point).1 ∧
      List.Forall₂ writtenAs (queryWrites (fun t => t.contains point) a)
        (getCollision a point).2.flags ∧
      List.Forall₂ writtenAs (queryWrites (fun t => t.contains point) a)
        (getCollision b point).2.flags) ∧
    ((getIntersectingVertices intersect a ray).1 = (getIntersectingVertices intersect b ray).1 ∧
      List.Forall₂ writtenAs (queryWrites (fun t => intersect t ray 0 100) a)
        (getIntersectingVertices intersect a ray).2.flags ∧
      List.Forall₂ writtenAs (queryWrites (fun t => intersect t ray 0 100) a)
        (getIntersectingVertices intersect b ray).2.flags) := by
  have hc := query_agree_of_skeleton (fun t => t.contains point)
    (fun t => Box.contains_skeleton t point) hab
  have hr := query_agree_of_skeleton (fun t => intersect t ray 0 100) hray hab
  refine ⟨⟨?_, getCollision_writes point a, ?_⟩, ?_, getIntersectingVertices_writes intersect ray a, ?_⟩
  · rw [getCollision_fst, getCollision_fst, hc.1]
  · rw [hc.2]
    exact getCollision_writes point b
  · rw [getIntersectingVertices_fst, getIntersectingVertices_fst, hr.1]
  · rw [hr.2]
    exact getIntersectingVertices_writes intersect ray b

/-- The tree `deepTree` before and after a first query at vertex `0` differs
only in flags; a second query at that point writes `true` to the root and to
the inner node on the way to the vertex, and both trees then hold these values. -/
theorem query_flags_agree_witness :
    deepTree.skeleton = (getCollision deepTree ⟨1/2, 1/2, 1/2⟩).2.skeleton ∧
    queryWrites (fun t => t.contains ⟨1/2, 1/2, 1/2⟩) deepTree =
      [some true, some true, none, some false] ∧
    List.Forall₂ writtenAs (queryWrites (fun t => t.contains ⟨1/2, 1/2, 1/2⟩) deepTree)
      (getCollision (getCollision deepTree ⟨1/2, 1/2, 1/2⟩).2 ⟨1/2, 1/2, 1/2⟩).2.flags :=
  ⟨(getCollision_skeleton deepTree ⟨1/2, 1/2, 1/2⟩).symm, by decide!,
    (query_flags_agree (fun _ _ _ _ => true) deepTree
      (getCollision deepTree ⟨1/2, 1/2, 1/2⟩).2 ⟨1/2, 1/2, 1/2⟩ ⟨⟨0, 10, 0⟩, ⟨0, -1, 0⟩⟩
      (getCollision_skeleton deepTree ⟨1/2, 1/2, 1/2⟩).symm (fun _ => rfl)).1.2.2⟩

/-- C11, counterexample. `deepTree` and the tree left by a query at vertex `0`
are equal except for flags. After a new query at `(10,10,10)`, outside the
bounds, the inner node of level 1 is not visited and keeps `false` in the first
tree and the `true` of the earlier query in the second. -/
theorem query_flags_agree_counterexample :
    deepTree.skeleton = (getCollision deepTree ⟨1/2, 1/2, 1/2⟩).2.skeleton ∧
    (getCollision deepTree ⟨10, 10, 10⟩).2.flags = [false, false, false, false] ∧
    (getCollision (getCollision deepTree ⟨1/2, 1/2, 1/2⟩).2 ⟨10, 10, 10⟩).2.flags =
      [false, true, false, false] :=
  ⟨(getCollision_skeleton deepTree ⟨1/2, 1/2, 1/2⟩).symm, by decide!, by decide!⟩

/-- A visited box that passes the test and gets nothing from its children is
left as it was: in the tree of the specification's example a query at
`(0.5,0.5,1.5)`, inside the root and in no child, leaves at the root the
`true` of an earlier query at vertex `0`. -/
theorem getCollision_flag_kept_on_empty_result :
    (getCollision (generateTree exampleBounds exampleMesh 3 0).1.root
      ⟨1/2, 1/2, 3/2⟩).2.flags = [false, false, false] ∧
    (getCollision (getCollision (generateTree exampleBounds exampleMesh 3 0).1.root
      ⟨1/2, 1/2, 1/2⟩).2 ⟨1/2, 1/2, 3/2⟩).2.flags = [true, false, false] := by
  decide!

/-- The bounding box of three vertices, none of which is the minimum or the
maximum on all axes. -/
theorem meshBounds_example :
    (meshBounds [⟨1, 5, 0⟩, ⟨3, 2, -1⟩, ⟨0, 7, 4⟩]).map Box.bounds =
      some (⟨0, 2, -1⟩, ⟨3, 7, 4⟩) := by
  decide!

/-! ## The recorded highest depth -/

theorem Box.recursedLevels_nil (md : Int) : Box.recursedLevels md [] = [] := rfl

theorem Box.recursedLevels_cons (md : Int) (b : Box) (bs : List Box) :
    Box.recursedLevels md (b :: bs) =
      Box.recursedLevels md [b] ++ Box.recursedLevels md bs := by
  simp [Box.recursedLevels, Box.nodesList]

theorem Box.recursedLevels_singleton (md : Int) (b : Box) :
    Box.recursedLevels md [b] =
      (if b.ranOn md = true then [b.level] else []) ++ Box.recursedLevels md b.children := by
  rw [Box.recursedLevels, Box.nodesList, Box.nodesList, List.append_nil, Box.nodes_eq,
    List.filter_cons]
  split_ifs <;> simp [Box.recursedLevels]

theorem processChildren_snd (recurse : Box → VertexMap → Int → Int → Box × Int)
    (V : VertexMap) (cd md : Int)
    (hrec : ∀ (b : Box) (hd : Int), b.children = [] → b.vertexIndices = [] →
      cd < md → 1 < (innerVerticesOf V b).length →
      (recurse (filledChild V cd b) (innerVerticesOf V b) (cd + 1) hd).2 =
        List.foldl max hd (Box.recursedLevels md
          [(recurse (filledChild V cd b) (innerVerticesOf V b) (cd + 1) hd).1])) :
    ∀ (bs : List Box) (highest : Int),
      (∀ b ∈ bs, b.children = [] ∧ b.vertexIndices = []) →
      (processChildren recurse V cd md bs highest).2 =
        List.foldl max highest
          (Box.recursedLevels md (processChildren recurse V cd md bs highest).1) := by
  intro bs
  induction bs with
  | nil => intro highest _; simp [processChildren, Box.recursedLevels_nil]
  | cons b bs ih =>
    intro highest hfresh
    have hb := hfresh b (List.mem_cons_self _ _)
    have hbs : ∀ x ∈ bs, x.children = [] ∧ x.vertexIndices = [] :=
      fun x hx => hfresh x (List.mem_cons_of_mem _ hx)
    rw [processChildren_cons]
    split_ifs with h1 h2
    · exact ih highest hbs
    · simp only []
      rw [Box.recursedLevels_cons, List.foldl_append, ih _ hbs,
        hrec b highest hb.1 hb.2 h2.1 h2.2]
    · simp only []
      have hnot : (filledChild V cd b).ranOn md = false := by
        simp only [Box.ranOn, filledChild_vertexIndices, hb.2, List.nil_append, List.length_map,
          filledChild_level, decide_eq_false_iff_not]
        intro hcon
        exact h2 ⟨by omega, hcon.1⟩
      rw [Box.recursedLevels_cons, List.foldl_append, Box.recursedLevels_singleton, hnot]
      simp only [filledChild_children, hb.1, Box.recursedLevels_nil, List.append_nil]
      exact ih highest hbs

theorem generateTreeNodesFuel_snd :
    ∀ (fuel : Nat) (node : Box) (V : VertexMap) (cd md highest : Int),
      (md - cd).toNat ≤ fuel →
      (generateTreeNodesFuel fuel node V cd md highest).2 =
        List.foldl max (max highest cd)
          (Box.recursedLevels md
            (generateTreeNodesFuel fuel node V cd md highest).1.children) := by
  intro fuel
  have hmax : ∀ a b : Int, (if a > b then a else b) = max b a := by
    intro a b
    rw [max_def]
    split_ifs <;> omega
  induction fuel with
  | zero =>
    intro node V cd md highest hfuel
    rw [generateTreeNodesFuel, generateTreeNodesBody_eq, hmax]
    simp only [Box.children_setChildren]
    apply processChildren_snd
    · intro b hd _ _ hlt _
      omega
    · intro b hb
      exact mem_subDivideBox8_children _ b hb
  | succ k ih =>
    intro node V cd md highest hfuel
    rw [generateTreeNodesFuel, generateTreeNodesBody_eq, hmax]
    simp only [Box.children_setChildren]
    apply processChildren_snd
    · intro b hd _ hvi hlt hlen
      have hran : ((generateTreeNodesFuel k (filledChild V cd b) (innerVerticesOf V b) (cd + 1)
          md hd).1).ranOn md = true := by
        rw [generateTreeNodesFuel_fst]
        simp only [Box.ranOn, buildTree_vertexIndices, filledChild_vertexIndices, hvi,
          List.nil_append, List.length_map, buildTree_level, decide_eq_true_eq]
        exact ⟨hlen, by omega⟩
      rw [Box.recursedLevels_singleton, hran, ih _ _ _ _ _ (by omega)]
      simp only [if_true, List.singleton_append, List.foldl_cons]
      rw [generateTreeNodesFuel_fst, buildTree_level]
    · intro b hb
      exact mem_subDivideBox8_children _ b hb

/-- C4 (as amended). Highest depth: starting from a counter of `0`, the value
of `octreeHighestDepth` after `generateTree` is the maximum level of the nodes
that `generateTreeNodes` ran on: the root, of level `0`, and every other node
of the built tree that has a level of at most `D` and holds more than one
vertex index (`Box.ranOn`). For the example of the specification it is `0`. -/
theorem generateTree_highest_depth (boundingBox : Box) (mesh : List Vector3) (D : Int) :
    (generateTree boundingBox mesh D 0).2 =
        List.foldl max 0
          (Box.recursedLevels D (generateTree boundingBox mesh D 0).1.root.children) ∧
      (generateTree exampleBounds exampleMesh 3 0).2 = 0 := by
  refine ⟨?_, by decide!⟩
  have h := generateTreeNodesFuel_snd (D - 0).toNat boundingBox mesh.enum 0 D 0 (le_refl _)
  simp only [generateTree, generateTreeNodes]
  rw [h]
  rfl

/-- C4, counterexample. In the example of the specification the recorded
highest depth is `0`, while the tree has nodes of level `1`: it is neither `1`
nor the maximum level of the nodes of the tree. -/
theorem generateTree_highest_depth_counterexample :
    (generateTree exampleBounds exampleMesh 3 0).2 ≠ 1 ∧
      (generateTree exampleBounds exampleMesh 3 0).2 ≠
        List.foldl max 0 ((generateTree exampleBounds exampleMesh 3 0).1.root.nodes.map
          Box.level) := by
  decide!

end LunarLander
